import Mathlib

/-
Verification of the per-pixel image-processing kernels in
`img_blur_fusion.metal`: packed-pixel conversions, the tiled transpose,
the recursive (IIR) Gaussian blur, segmentation fusion, bilinear resize,
the NV12/I420 format-conversion family and NV12 padding adjustment.

Modelling conventions:
* device buffers are total functions `ℤ → ℕ` from byte (or 32-bit word)
  index to stored value; a kernel invocation transforms such a function
  by `Function.update` at the indices it stores to;
* C `int` scalars are `ℤ`, C `float` scalars are `ℚ` (exact arithmetic);
* C float-to-int conversion truncates toward zero (`truncQ`); converting
  a negative float to an unsigned type, undefined behaviour in the
  source language, is modelled as saturation to 0, and an out-of-range
  one as wrapping;
* `mad24 a b c` / `mul24 a b` are modelled as `a * b + c` / `a * b`
  (every index computed by the kernels fits in 24 bits);
* each `kernel void F(...)` becomes a function of its invocation index;
  a whole dispatch is the sequential fold of the invocations over the
  grid (where the kernel is race-free each cell is written at most
  once, so the fold order is immaterial there).
-/

/-- C float-to-integer conversion (also OpenCL/Metal `convert_int`):
truncation toward zero. -/
def truncQ (q : ℚ) : ℤ := if q < 0 then ⌈q⌉ else ⌊q⌋

/-- C `(uint)f` conversion of a float: truncate toward zero; negative
inputs (undefined behaviour in the source) saturate to `0`, out-of-range
ones wrap. -/
def castUint (q : ℚ) : ℕ := (truncQ q).toNat % 2 ^ 32

/-- C `(uchar)f` conversion of a float: truncate toward zero; negative
inputs (undefined behaviour in the source) saturate to `0`, out-of-range
ones wrap. -/
def castUchar (q : ℚ) : ℕ := (truncQ q).toNat % 2 ^ 8

theorem truncQ_natCast (n : ℕ) : truncQ (n : ℚ) = n := by
  unfold truncQ
  rw [if_neg (not_lt.mpr (by positivity))]
  exact_mod_cast Int.floor_natCast n

theorem truncQ_intCast (z : ℤ) : truncQ (z : ℚ) = z := by
  unfold truncQ
  rcases lt_or_le (z : ℚ) 0 with h | h
  · rw [if_pos h]; exact_mod_cast Int.ceil_intCast z
  · rw [if_neg (not_lt.mpr h)]; exact_mod_cast Int.floor_intCast z

theorem truncQ_nonneg (q : ℚ) (h : 0 ≤ q) : truncQ q = ⌊q⌋ := by
  unfold truncQ
  rw [if_neg (not_lt.mpr h)]

theorem castUint_natCast (n : ℕ) : castUint (n : ℚ) = n % 2 ^ 32 := by
  unfold castUint
  rw [truncQ_natCast]
  simp

/-- The `float4` vector type, with exact rational components. -/
structure Float4 where
  x : ℚ
  y : ℚ
  z : ℚ
  w : ℚ
deriving DecidableEq

instance : Add Float4 :=
  ⟨fun a b => ⟨a.x + b.x, a.y + b.y, a.z + b.z, a.w + b.w⟩⟩

instance : Sub Float4 :=
  ⟨fun a b => ⟨a.x - b.x, a.y - b.y, a.z - b.z, a.w - b.w⟩⟩

instance : Mul Float4 :=
  ⟨fun a b => ⟨a.x * b.x, a.y * b.y, a.z * b.z, a.w * b.w⟩⟩

instance : Div Float4 :=
  ⟨fun a b => ⟨a.x / b.x, a.y / b.y, a.z / b.z, a.w / b.w⟩⟩

/-- Broadcast of a scalar to all four lanes: `(float4)c`. -/
def Float4.splat (c : ℚ) : Float4 := ⟨c, c, c, c⟩

/-- `float4 * float` (vector times scalar, as in `xc * a0`). -/
def Float4.smul (a : Float4) (c : ℚ) : Float4 :=
  ⟨a.x * c, a.y * c, a.z * c, a.w * c⟩

theorem Float4.add_def (a b : Float4) :
    a + b = ⟨a.x + b.x, a.y + b.y, a.z + b.z, a.w + b.w⟩ := rfl

theorem Float4.sub_def (a b : Float4) :
    a - b = ⟨a.x - b.x, a.y - b.y, a.z - b.z, a.w - b.w⟩ := rfl

theorem Float4.mul_def (a b : Float4) :
    a * b = ⟨a.x * b.x, a.y * b.y, a.z * b.z, a.w * b.w⟩ := rfl

theorem Float4.div_def (a b : Float4) :
    a / b = ⟨a.x / b.x, a.y / b.y, a.z / b.z, a.w / b.w⟩ := rfl

/-- `dataUchar4ToFloat4`: unpack a 32-bit word into four float channels
(R,G,B,A in ascending byte order). -/
def dataUchar4ToFloat4 (uiPacked : ℕ) : Float4 :=
  ⟨(uiPacked &&& 0xff : ℕ), ((uiPacked >>> 8) &&& 0xff : ℕ),
   ((uiPacked >>> 16) &&& 0xff : ℕ), ((uiPacked >>> 24) &&& 0xff : ℕ)⟩

/-- `dataFloat4ToUchar4`: pack four float channels into a 32-bit word.
Each channel is converted by the C `(uint)` cast (truncation) and masked
to its byte lane; there is no rounding and no clamping. -/
def dataFloat4ToUchar4 (data_f4 : Float4) : ℕ :=
  0 ||| (0x000000FF &&& castUint data_f4.x) |||
    (0x0000FF00 &&& (castUint data_f4.y <<< 8)) |||
    (0x00FF0000 &&& (castUint data_f4.z <<< 16)) |||
    (0xFF000000 &&& (castUint data_f4.w <<< 24))

theorem and_255_eq_mod (a : ℕ) : 255 &&& a = a % 256 := by
  have h : (255 : ℕ) = 2 ^ 8 - 1 := by norm_num
  rw [Nat.and_comm, h, Nat.and_pow_two_sub_one_eq_mod]

theorem shiftLeft_and_shiftLeft (a b k : ℕ) :
    (a <<< k) &&& (b <<< k) = (a &&& b) <<< k := by
  apply Nat.eq_of_testBit_eq
  intro i
  simp only [Nat.testBit_and, Nat.testBit_shiftLeft]
  by_cases h : k ≤ i <;> simp [h]

theorem mask_shift_eq (t k : ℕ) :
    ((255 <<< k) &&& (t <<< k)) = (t % 256) * 2 ^ k := by
  rw [shiftLeft_and_shiftLeft, and_255_eq_mod, Nat.shiftLeft_eq]

theorem or_small_add (a b k : ℕ) (h : a < 2 ^ k) :
    a ||| 2 ^ k * b = a + 2 ^ k * b := by
  rw [Nat.or_comm, ← Nat.mul_add_lt_is_or h, add_comm]

/-- Arithmetic characterisation of the packing function: the produced
word is the little-endian base-256 combination of the four truncated,
masked channels. -/
theorem dataFloat4ToUchar4_eq (d : Float4) :
    dataFloat4ToUchar4 d =
      castUint d.x % 256 + 256 * (castUint d.y % 256) +
        65536 * (castUint d.z % 256) + 16777216 * (castUint d.w % 256) := by
  unfold dataFloat4ToUchar4
  have h0 : (0x000000FF : ℕ) &&& castUint d.x = castUint d.x % 256 :=
    and_255_eq_mod _
  have h1 : (0x0000FF00 : ℕ) &&& (castUint d.y <<< 8) =
      (castUint d.y % 256) * 2 ^ 8 := by
    have : (0x0000FF00 : ℕ) = 255 <<< 8 := by decide
    rw [this, mask_shift_eq]
  have h2 : (0x00FF0000 : ℕ) &&& (castUint d.z <<< 16) =
      (castUint d.z % 256) * 2 ^ 16 := by
    have : (0x00FF0000 : ℕ) = 255 <<< 16 := by decide
    rw [this, mask_shift_eq]
  have h3 : (0xFF000000 : ℕ) &&& (castUint d.w <<< 24) =
      (castUint d.w % 256) * 2 ^ 24 := by
    have : (0xFF000000 : ℕ) = 255 <<< 24 := by decide
    rw [this, mask_shift_eq]
  rw [h0, h1, h2, h3, Nat.zero_or]
  have m0 : castUint d.x % 256 < 256 := Nat.mod_lt _ (by norm_num)
  have m1 : castUint d.y % 256 < 256 := Nat.mod_lt _ (by norm_num)
  have m2 : castUint d.z % 256 < 256 := Nat.mod_lt _ (by norm_num)
  have m3 : castUint d.w % 256 < 256 := Nat.mod_lt _ (by norm_num)
  rw [mul_comm (castUint d.y % 256) (2 ^ 8),
    or_small_add _ _ 8 (by omega),
    mul_comm (castUint d.z % 256) (2 ^ 16),
    or_small_add _ _ 16 (by omega),
    mul_comm (castUint d.w % 256) (2 ^ 24),
    or_small_add _ _ 24 (by omega)]
  ring

/-- Arithmetic characterisation of the unpacking function. -/
theorem dataUchar4ToFloat4_eq (p : ℕ) :
    dataUchar4ToFloat4 p =
      ⟨(p % 256 : ℕ), (p / 2 ^ 8 % 256 : ℕ),
       (p / 2 ^ 16 % 256 : ℕ), (p / 2 ^ 24 % 256 : ℕ)⟩ := by
  unfold dataUchar4ToFloat4
  rw [Nat.and_comm p 0xff, and_255_eq_mod, Nat.shiftRight_eq_div_pow,
    Nat.shiftRight_eq_div_pow, Nat.shiftRight_eq_div_pow,
    Nat.and_comm _ 0xff, and_255_eq_mod,
    Nat.and_comm _ 0xff, and_255_eq_mod,
    Nat.and_comm _ 0xff, and_255_eq_mod]

/-- Unpacking a packed word recovers the truncated, masked channels. -/
theorem unpack_pack (d : Float4) :
    dataUchar4ToFloat4 (dataFloat4ToUchar4 d) =
      ⟨(castUint d.x % 256 : ℕ), (castUint d.y % 256 : ℕ),
       (castUint d.z % 256 : ℕ), (castUint d.w % 256 : ℕ)⟩ := by
  rw [dataUchar4ToFloat4_eq, dataFloat4ToUchar4_eq]
  have m0 : castUint d.x % 256 < 256 := Nat.mod_lt _ (by norm_num)
  have m1 : castUint d.y % 256 < 256 := Nat.mod_lt _ (by norm_num)
  have m2 : castUint d.z % 256 < 256 := Nat.mod_lt _ (by norm_num)
  have m3 : castUint d.w % 256 < 256 := Nat.mod_lt _ (by norm_num)
  have e0 : (castUint d.x % 256 + 256 * (castUint d.y % 256) +
      65536 * (castUint d.z % 256) + 16777216 * (castUint d.w % 256)) % 256 =
      castUint d.x % 256 := by omega
  have e1 : (castUint d.x % 256 + 256 * (castUint d.y % 256) +
      65536 * (castUint d.z % 256) + 16777216 * (castUint d.w % 256)) / 2 ^ 8 % 256 =
      castUint d.y % 256 := by omega
  have e2 : (castUint d.x % 256 + 256 * (castUint d.y % 256) +
      65536 * (castUint d.z % 256) + 16777216 * (castUint d.w % 256)) / 2 ^ 16 % 256 =
      castUint d.z % 256 := by omega
  have e3 : (castUint d.x % 256 + 256 * (castUint d.y % 256) +
      65536 * (castUint d.z % 256) + 16777216 * (castUint d.w % 256)) / 2 ^ 24 % 256 =
      castUint d.w % 256 := by omega
  rw [e0, e1, e2, e3]

/-- Packing the unpacking of a 32-bit word is the identity. -/
theorem pack_unpack (p : ℕ) (h : p < 2 ^ 32) :
    dataFloat4ToUchar4 (dataUchar4ToFloat4 p) = p := by
  rw [dataUchar4ToFloat4_eq, dataFloat4ToUchar4_eq]
  simp only [castUint_natCast, truncQ_natCast]
  omega

/-- Packing four byte values (below 256) stores them verbatim. -/
theorem pack_bytes (b0 b1 b2 b3 : ℕ) (h0 : b0 < 256) (h1 : b1 < 256)
    (h2 : b2 < 256) (h3 : b3 < 256) :
    dataFloat4ToUchar4 ⟨(b0 : ℚ), (b1 : ℚ), (b2 : ℚ), (b3 : ℚ)⟩ =
      b0 + 256 * b1 + 65536 * b2 + 16777216 * b3 := by
  rw [dataFloat4ToUchar4_eq]
  simp only [castUint_natCast]
  omega

/-
Generic dispatch machinery.  `iterRows step n a` folds the invocations
`step 0, step 1, ..., step (n-1)` (in that order) over a state `a`;
`runGrid2` runs a 2-D grid row-major (x fastest).  The observation
lemmas below recover the value of one cell of a buffer after a whole
dispatch from "which invocation wrote it last".
-/

def iterRows {α : Type} (step : ℕ → α → α) : ℕ → α → α
  | 0, a => a
  | n + 1, a => step n (iterRows step n a)

def runGrid2 {α : Type} (step : ℕ → ℕ → α → α) (w h : ℕ) : α → α :=
  iterRows (fun iy => iterRows (fun ix => step ix iy) w) h

theorem iterRows_obs_skip {α : Type} (step : ℕ → α → α) (obs : α → ℕ)
    (n : ℕ) (ho : ∀ t, t < n → ∀ a, obs (step t a) = obs a) :
    ∀ a, obs (iterRows step n a) = obs a := by
  induction n with
  | zero => intro a; rfl
  | succ n ih =>
      intro a
      show obs (step n (iterRows step n a)) = obs a
      rw [ho n (Nat.lt_succ_self n), ih (fun t ht => ho t (Nat.lt_succ_of_lt ht))]

theorem iterRows_obs_write {α : Type} (step : ℕ → α → α) (obs : α → ℕ)
    (n t0 : ℕ) (v : ℕ) (ht : t0 < n) (hw : ∀ a, obs (step t0 a) = v)
    (ho : ∀ t, t < n → t0 < t → ∀ a, obs (step t a) = obs a) :
    ∀ a, obs (iterRows step n a) = v := by
  induction n with
  | zero => omega
  | succ n ih =>
      intro a
      show obs (step n (iterRows step n a)) = v
      rcases Nat.lt_or_ge t0 n with h | h
      · rw [ho n (Nat.lt_succ_self n) h]
        exact ih h (fun t h1 h2 => ho t (Nat.lt_succ_of_lt h1) h2) a
      · have : t0 = n := by omega
        subst this
        exact hw _

theorem runGrid2_obs_skip {α : Type} (step : ℕ → ℕ → α → α) (obs : α → ℕ)
    (w h : ℕ) (ho : ∀ ix iy, ix < w → iy < h → ∀ a, obs (step ix iy a) = obs a) :
    ∀ a, obs (runGrid2 step w h a) = obs a := by
  refine iterRows_obs_skip _ obs h (fun iy hy a => ?_)
  exact iterRows_obs_skip _ obs w (fun ix hx b => ho ix iy hx hy b) a

theorem runGrid2_obs_write {α : Type} (step : ℕ → ℕ → α → α) (obs : α → ℕ)
    (w h ix0 iy0 : ℕ) (v : ℕ) (hx : ix0 < w) (hy : iy0 < h)
    (hw : ∀ a, obs (step ix0 iy0 a) = v)
    (hrow : ∀ ix, ix < w → ix0 < ix → ∀ a, obs (step ix iy0 a) = obs a)
    (hup : ∀ ix iy, ix < w → iy < h → iy0 < iy → ∀ a, obs (step ix iy a) = obs a) :
    ∀ a, obs (runGrid2 step w h a) = v := by
  refine iterRows_obs_write _ obs h iy0 v hy (fun a => ?_) (fun iy h1 h2 a => ?_)
  · exact iterRows_obs_write _ obs w ix0 v hx hw
      (fun ix hx1 hx2 b => hrow ix hx1 hx2 b) a
  · exact iterRows_obs_skip _ obs w (fun ix hx1 b => hup ix iy hx1 h1 h2 b) a

theorem runGrid2_congr {α : Type} (step step' : ℕ → ℕ → α → α) (w h : ℕ)
    (hstep : ∀ ix iy a, ix < w → iy < h → step ix iy a = step' ix iy a) :
    ∀ a, runGrid2 step w h a = runGrid2 step' w h a := by
  unfold runGrid2
  have aux : ∀ (f g : ℕ → α → α) (n : ℕ),
      (∀ t a, t < n → f t a = g t a) → ∀ a, iterRows f n a = iterRows g n a := by
    intro f g n hfg
    induction n with
    | zero => intro a; rfl
    | succ n ih =>
        intro a
        show f n (iterRows f n a) = g n (iterRows g n a)
        rw [hfg n _ (Nat.lt_succ_self n), ih (fun t a ht => hfg t a (Nat.lt_succ_of_lt ht))]
  intro a
  refine aux _ _ h (fun iy b hy => ?_) a
  exact aux _ _ w (fun ix c hx => hstep ix iy c hx hy) b

/-- Unique decomposition of a row-major index (integer version):
if `0 ≤ x, x' < w` then `y * w + x = y' * w + x'` forces `y = y'` and
`x = x'`. -/
theorem rowcol_inj {w x x' y y' : ℤ} (hx0 : 0 ≤ x) (hxw : x < w)
    (hx0' : 0 ≤ x') (hxw' : x' < w) (h : y * w + x = y' * w + x') :
    y = y' ∧ x = x' := by
  have hw : 0 < w := lt_of_le_of_lt hx0 hxw
  have hyy : y = y' := by
    rcases lt_trichotomy y y' with hlt | heq | hgt
    · exfalso
      have h1 : y + 1 ≤ y' := hlt
      have h2 : (y + 1) * w ≤ y' * w := by
        exact mul_le_mul_of_nonneg_right h1 (le_of_lt hw)
      nlinarith
    · exact heq
    · exfalso
      have h1 : y' + 1 ≤ y := hgt
      have h2 : (y' + 1) * w ≤ y * w := by
        exact mul_le_mul_of_nonneg_right h1 (le_of_lt hw)
      nlinarith
  subst hyy
  exact ⟨rfl, by omega⟩

/-
`kernel void Fusion`: per-pixel alpha blend of a blurred packed-pixel
image with a live frame (4 interleaved byte channels), driven per
channel by a mask word divided by 255 and two thresholds.  One
invocation per pixel `(X, Y)`.
-/

def Fusion (puiDataIn pucFrame piLabelIn : ℤ → ℕ) (iWidth iHeight : ℤ)
    (fMinThresh fMaxThresh : ℚ) (X Y : ℕ) (puiDataOut : ℤ → ℕ) : ℤ → ℕ :=
  if (X : ℤ) < iWidth ∧ (Y : ℤ) < iHeight then
    let nOffSet : ℤ := (Y : ℤ) * iWidth + (X : ℤ)
    let fl4_BlurValue := dataUchar4ToFloat4 (puiDataIn nOffSet)
    let fl4_FusnValue := fl4_BlurValue
    let fl4_ForeValue :=
      dataUchar4ToFloat4 (piLabelIn nOffSet) / Float4.splat 255
    let fl4_BackValue := Float4.splat 1 - fl4_ForeValue
    let fl4_FramValue : Float4 :=
      ⟨(pucFrame (4 * nOffSet) : ℚ), (pucFrame (4 * nOffSet + 1) : ℚ),
       (pucFrame (4 * nOffSet + 2) : ℚ), (pucFrame (4 * nOffSet + 3) : ℚ)⟩
    let fx :=
      if fl4_ForeValue.x ≥ fMinThresh ∧ fl4_ForeValue.x < fMaxThresh then
        fl4_FramValue.x * fl4_ForeValue.x + fl4_FusnValue.x * fl4_BackValue.x
      else if fl4_ForeValue.x ≥ fMaxThresh then fl4_FramValue.x
      else fl4_FusnValue.x
    let fy :=
      if fl4_ForeValue.y ≥ fMinThresh ∧ fl4_ForeValue.y < fMaxThresh then
        fl4_FramValue.y * fl4_ForeValue.y + fl4_FusnValue.y * fl4_BackValue.y
      else if fl4_ForeValue.y ≥ fMaxThresh then fl4_FramValue.y
      else fl4_FusnValue.y
    let fz :=
      if fl4_ForeValue.z ≥ fMinThresh ∧ fl4_ForeValue.z < fMaxThresh then
        fl4_FramValue.z * fl4_ForeValue.z + fl4_FusnValue.z * fl4_BackValue.z
      else if fl4_ForeValue.z ≥ fMaxThresh then fl4_FramValue.z
      else fl4_FusnValue.z
    let fw :=
      if fl4_ForeValue.w ≥ fMinThresh ∧ fl4_ForeValue.w < fMaxThresh then
        fl4_FramValue.w * fl4_ForeValue.w + fl4_FusnValue.w * fl4_BackValue.w
      else if fl4_ForeValue.w ≥ fMaxThresh then fl4_FramValue.w
      else fl4_FusnValue.w
    Function.update puiDataOut nOffSet (dataFloat4ToUchar4 ⟨fx, fy, fz, fw⟩)
  else puiDataOut

/-- The spec's description of one fusion channel: three regimes split
at `fMinThresh` and `fMaxThresh` — pure background below, linear
cross-dissolve in the middle, pure foreground at or above the top. -/
def fusionChannelSpec (fMin fMax fg blur frame : ℚ) : ℚ :=
  if fg < fMin then blur
  else if fg < fMax then frame * fg + blur * (1 - fg)
  else frame

theorem fusionChannel_code_eq_spec (fMin fMax fg blur frame : ℚ)
    (h : fMin ≤ fMax) :
    (if fg ≥ fMin ∧ fg < fMax then frame * fg + blur * (1 - fg)
     else if fg ≥ fMax then frame else blur) =
      fusionChannelSpec fMin fMax fg blur frame := by
  unfold fusionChannelSpec
  rcases lt_or_le fg fMin with h1 | h1
  · rw [if_neg (by rw [not_and_or]; left; exact not_le.mpr h1),
      if_neg (not_le.mpr (lt_of_lt_of_le h1 h)), if_pos h1]
  · rw [if_neg (not_lt.mpr h1)]
    rcases lt_or_le fg fMax with h2 | h2
    · rw [if_pos ⟨h1, h2⟩, if_pos h2]
    · rw [if_neg (by rw [not_and_or]; right; exact not_lt.mpr h2),
        if_pos h2, if_neg (not_lt.mpr h2)]

theorem fusionChannelSpec_zero (fMin fMax blur frame : ℚ) (h : 0 < fMax) :
    fusionChannelSpec fMin fMax 0 blur frame = blur := by
  unfold fusionChannelSpec
  rcases lt_or_le (0 : ℚ) fMin with h1 | h1
  · rw [if_pos h1]
  · rw [if_neg (not_lt.mpr h1), if_pos h]
    ring

theorem fusionChannelSpec_one (fMin fMax blur frame : ℚ) (h1 : fMin ≤ 1) :
    fusionChannelSpec fMin fMax 1 blur frame = frame := by
  unfold fusionChannelSpec
  rw [if_neg (not_lt.mpr h1)]
  rcases lt_or_le (1 : ℚ) fMax with h2 | h2
  · rw [if_pos h2]; ring
  · rw [if_neg (not_lt.mpr h2)]

/-- C4.  For an in-bounds pixel, `Fusion` evaluates the four channels
independently against their own mask channel (the mask byte over 255),
with the spec's three regimes `fg < min` / `min ≤ fg < max` /
`fg ≥ max`, and packs the result with the truncating pack function.
Consequently a zero mask word reproduces the blurred word and an
all-255 mask word reproduces the frame bytes. -/
theorem Fusion_matches_spec
    (puiDataIn pucFrame piLabelIn : ℤ → ℕ) (iWidth iHeight : ℤ)
    (fMin fMax : ℚ) (X Y : ℕ) (out : ℤ → ℕ)
    (hX : (X : ℤ) < iWidth) (hY : (Y : ℤ) < iHeight) (hT : fMin ≤ fMax) :
    Fusion puiDataIn pucFrame piLabelIn iWidth iHeight fMin fMax X Y out
        ((Y : ℤ) * iWidth + (X : ℤ)) =
      dataFloat4ToUchar4
        ⟨fusionChannelSpec fMin fMax
            ((dataUchar4ToFloat4 (piLabelIn ((Y : ℤ) * iWidth + (X : ℤ)))).x / 255)
            ((dataUchar4ToFloat4 (puiDataIn ((Y : ℤ) * iWidth + (X : ℤ)))).x)
            ((pucFrame (4 * ((Y : ℤ) * iWidth + (X : ℤ))) : ℚ)),
         fusionChannelSpec fMin fMax
            ((dataUchar4ToFloat4 (piLabelIn ((Y : ℤ) * iWidth + (X : ℤ)))).y / 255)
            ((dataUchar4ToFloat4 (puiDataIn ((Y : ℤ) * iWidth + (X : ℤ)))).y)
            ((pucFrame (4 * ((Y : ℤ) * iWidth + (X : ℤ)) + 1) : ℚ)),
         fusionChannelSpec fMin fMax
            ((dataUchar4ToFloat4 (piLabelIn ((Y : ℤ) * iWidth + (X : ℤ)))).z / 255)
            ((dataUchar4ToFloat4 (puiDataIn ((Y : ℤ) * iWidth + (X : ℤ)))).z)
            ((pucFrame (4 * ((Y : ℤ) * iWidth + (X : ℤ)) + 2) : ℚ)),
         fusionChannelSpec fMin fMax
            ((dataUchar4ToFloat4 (piLabelIn ((Y : ℤ) * iWidth + (X : ℤ)))).w / 255)
            ((dataUchar4ToFloat4 (puiDataIn ((Y : ℤ) * iWidth + (X : ℤ)))).w)
            ((pucFrame (4 * ((Y : ℤ) * iWidth + (X : ℤ)) + 3) : ℚ))⟩ ∧
      (piLabelIn ((Y : ℤ) * iWidth + (X : ℤ)) = 0 → 0 < fMax →
        puiDataIn ((Y : ℤ) * iWidth + (X : ℤ)) < 2 ^ 32 →
        Fusion puiDataIn pucFrame piLabelIn iWidth iHeight fMin fMax X Y out
            ((Y : ℤ) * iWidth + (X : ℤ)) =
          puiDataIn ((Y : ℤ) * iWidth + (X : ℤ))) ∧
      (piLabelIn ((Y : ℤ) * iWidth + (X : ℤ)) = 4294967295 → fMin ≤ 1 →
        pucFrame (4 * ((Y : ℤ) * iWidth + (X : ℤ))) < 256 →
        pucFrame (4 * ((Y : ℤ) * iWidth + (X : ℤ)) + 1) < 256 →
        pucFrame (4 * ((Y : ℤ) * iWidth + (X : ℤ)) + 2) < 256 →
        pucFrame (4 * ((Y : ℤ) * iWidth + (X : ℤ)) + 3) < 256 →
        Fusion puiDataIn pucFrame piLabelIn iWidth iHeight fMin fMax X Y out
            ((Y : ℤ) * iWidth + (X : ℤ)) =
          pucFrame (4 * ((Y : ℤ) * iWidth + (X : ℤ))) +
            256 * pucFrame (4 * ((Y : ℤ) * iWidth + (X : ℤ)) + 1) +
            65536 * pucFrame (4 * ((Y : ℤ) * iWidth + (X : ℤ)) + 2) +
            16777216 * pucFrame (4 * ((Y : ℤ) * iWidth + (X : ℤ)) + 3)) := by
  have hmain : Fusion puiDataIn pucFrame piLabelIn iWidth iHeight fMin fMax X Y out
      ((Y : ℤ) * iWidth + (X : ℤ)) =
      dataFloat4ToUchar4
        ⟨fusionChannelSpec fMin fMax
            ((dataUchar4ToFloat4 (piLabelIn ((Y : ℤ) * iWidth + (X : ℤ)))).x / 255)
            ((dataUchar4ToFloat4 (puiDataIn ((Y : ℤ) * iWidth + (X : ℤ)))).x)
            ((pucFrame (4 * ((Y : ℤ) * iWidth + (X : ℤ))) : ℚ)),
         fusionChannelSpec fMin fMax
            ((dataUchar4ToFloat4 (piLabelIn ((Y : ℤ) * iWidth + (X : ℤ)))).y / 255)
            ((dataUchar4ToFloat4 (puiDataIn ((Y : ℤ) * iWidth + (X : ℤ)))).y)
            ((pucFrame (4 * ((Y : ℤ) * iWidth + (X : ℤ)) + 1) : ℚ)),
         fusionChannelSpec fMin fMax
            ((dataUchar4ToFloat4 (piLabelIn ((Y : ℤ) * iWidth + (X : ℤ)))).z / 255)
            ((dataUchar4ToFloat4 (puiDataIn ((Y : ℤ) * iWidth + (X : ℤ)))).z)
            ((pucFrame (4 * ((Y : ℤ) * iWidth + (X : ℤ)) + 2) : ℚ)),
         fusionChannelSpec fMin fMax
            ((dataUchar4ToFloat4 (piLabelIn ((Y : ℤ) * iWidth + (X : ℤ)))).w / 255)
            ((dataUchar4ToFloat4 (puiDataIn ((Y : ℤ) * iWidth + (X : ℤ)))).w)
            ((pucFrame (4 * ((Y : ℤ) * iWidth + (X : ℤ)) + 3) : ℚ))⟩ := by
    unfold Fusion
    rw [if_pos ⟨hX, hY⟩]
    simp only [Float4.div_def, Float4.sub_def, Float4.splat, Function.update_same]
    congr 1
    rw [Float4.mk.injEq]
    refine ⟨?_, ?_, ?_, ?_⟩ <;>
      exact fusionChannel_code_eq_spec _ _ _ _ _ hT
  refine ⟨hmain, fun h0 hmx hlt => ?_, fun h255 hm1 hb0 hb1 hb2 hb3 => ?_⟩
  · rw [hmain, h0]
    have hz : dataUchar4ToFloat4 0 = ⟨0, 0, 0, 0⟩ := by
      rw [dataUchar4ToFloat4_eq]; norm_num
    rw [hz]
    show dataFloat4ToUchar4
        ⟨fusionChannelSpec fMin fMax (0 / 255) _ _,
         fusionChannelSpec fMin fMax (0 / 255) _ _,
         fusionChannelSpec fMin fMax (0 / 255) _ _,
         fusionChannelSpec fMin fMax (0 / 255) _ _⟩ = _
    rw [show (0 : ℚ) / 255 = 0 by norm_num]
    rw [fusionChannelSpec_zero _ _ _ _ hmx, fusionChannelSpec_zero _ _ _ _ hmx,
      fusionChannelSpec_zero _ _ _ _ hmx, fusionChannelSpec_zero _ _ _ _ hmx]
    exact pack_unpack _ hlt
  · rw [hmain, h255]
    have h : dataUchar4ToFloat4 4294967295 = ⟨255, 255, 255, 255⟩ := by
      rw [dataUchar4ToFloat4_eq]; norm_num
    rw [h]
    show dataFloat4ToUchar4
        ⟨fusionChannelSpec fMin fMax (255 / 255) _ _,
         fusionChannelSpec fMin fMax (255 / 255) _ _,
         fusionChannelSpec fMin fMax (255 / 255) _ _,
         fusionChannelSpec fMin fMax (255 / 255) _ _⟩ = _
    rw [show (255 : ℚ) / 255 = 1 by norm_num]
    rw [fusionChannelSpec_one _ _ _ _ hm1, fusionChannelSpec_one _ _ _ _ hm1,
      fusionChannelSpec_one _ _ _ _ hm1, fusionChannelSpec_one _ _ _ _ hm1]
    exact pack_bytes _ _ _ _ hb0 hb1 hb2 hb3

theorem Fusion_matches_spec_witness :
    (((0 : ℕ) : ℤ) < 1 ∧ ((0 : ℕ) : ℤ) < 1 ∧ (1 : ℚ) / 4 ≤ 1 / 2) ∧
    Fusion (fun _ => 7) (fun _ => 9) (fun _ => 0) 1 1 (1 / 4) (1 / 2) 0 0
        (fun _ => 0) (((0 : ℕ) : ℤ) * 1 + ((0 : ℕ) : ℤ)) =
      dataFloat4ToUchar4
        ⟨fusionChannelSpec (1 / 4) (1 / 2) ((dataUchar4ToFloat4 0).x / 255)
            ((dataUchar4ToFloat4 7).x) ((9 : ℕ) : ℚ),
         fusionChannelSpec (1 / 4) (1 / 2) ((dataUchar4ToFloat4 0).y / 255)
            ((dataUchar4ToFloat4 7).y) ((9 : ℕ) : ℚ),
         fusionChannelSpec (1 / 4) (1 / 2) ((dataUchar4ToFloat4 0).z / 255)
            ((dataUchar4ToFloat4 7).z) ((9 : ℕ) : ℚ),
         fusionChannelSpec (1 / 4) (1 / 2) ((dataUchar4ToFloat4 0).w / 255)
            ((dataUchar4ToFloat4 7).w) ((9 : ℕ) : ℚ)⟩ :=
  ⟨⟨by norm_num, by norm_num, by norm_num⟩,
   (Fusion_matches_spec (fun _ => 7) (fun _ => 9) (fun _ => 0) 1 1 (1 / 4)
      (1 / 2) 0 0 (fun _ => 0) (by norm_num) (by norm_num) (by norm_num)).1⟩

/-- C8.  The float4-to-packed-uint conversion truncates each channel
with the C `(uint)` cast and masks it to its low 8 bits: every output
byte equals the unsigned-integer truncation of its channel masked with
`0xFF` — no rounding and no clamping takes place. -/
theorem and_255_eq_mod_right (a : ℕ) : a &&& 255 = a % 256 := by
  rw [Nat.and_comm]
  exact and_255_eq_mod a

theorem dataFloat4ToUchar4_truncates_and_masks (d : Float4) :
    dataFloat4ToUchar4 d &&& 0xFF = castUint d.x &&& 0xFF ∧
    (dataFloat4ToUchar4 d >>> 8) &&& 0xFF = castUint d.y &&& 0xFF ∧
    (dataFloat4ToUchar4 d >>> 16) &&& 0xFF = castUint d.z &&& 0xFF ∧
    dataFloat4ToUchar4 d >>> 24 = castUint d.w &&& 0xFF := by
  simp only [and_255_eq_mod_right, Nat.shiftRight_eq_div_pow,
    dataFloat4ToUchar4_eq]
  have m0 : castUint d.x % 256 < 256 := Nat.mod_lt _ (by norm_num)
  have m1 : castUint d.y % 256 < 256 := Nat.mod_lt _ (by norm_num)
  have m2 : castUint d.z % 256 < 256 := Nat.mod_lt _ (by norm_num)
  have m3 : castUint d.w % 256 < 256 := Nat.mod_lt _ (by norm_num)
  refine ⟨by omega, by omega, by omega, by omega⟩

/-- Modelled from the spec: "conversions to/from float must round and
clamp" — round to nearest (via `+ 1/2`) and clamp to `[0,255]`. -/
def roundClampByte (q : ℚ) : ℕ := (min 255 (max 0 ⌊q + 1 / 2⌋)).toNat

/-- C9 counterexample.  On the channel value `300.5` the packing
function produces byte `44` (truncate-and-mask), not the
rounded-and-clamped byte `255` the claim requires. -/
theorem pack_is_not_round_clamp :
    dataFloat4ToUchar4 ⟨601 / 2, 0, 0, 0⟩ = 44 ∧
      roundClampByte (601 / 2) = 255 := by
  constructor
  · rw [dataFloat4ToUchar4_eq]
    have h1 : castUint (601 / 2) = 300 := by
      unfold castUint truncQ
      rw [if_neg (by norm_num)]
      norm_num
      decide
    have h2 : castUint 0 = 0 := by
      unfold castUint truncQ
      rw [if_neg (by norm_num)]
      norm_num
    show castUint (601 / 2) % 256 + 256 * (castUint 0 % 256) +
        65536 * (castUint 0 % 256) + 16777216 * (castUint 0 % 256) = 44
    rw [h1, h2]
  · unfold roundClampByte
    norm_num
    decide

/-- C9 amended.  Channel values produced by unpacking a packed word are
always in `[0,255]`; but the float-to-packed conversion does not round
and clamp — it truncates each channel and masks it to the low 8 bits. -/
theorem packed_channel_range_and_truncation :
    (∀ p : ℕ,
      (0 ≤ (dataUchar4ToFloat4 p).x ∧ (dataUchar4ToFloat4 p).x ≤ 255) ∧
      (0 ≤ (dataUchar4ToFloat4 p).y ∧ (dataUchar4ToFloat4 p).y ≤ 255) ∧
      (0 ≤ (dataUchar4ToFloat4 p).z ∧ (dataUchar4ToFloat4 p).z ≤ 255) ∧
      (0 ≤ (dataUchar4ToFloat4 p).w ∧ (dataUchar4ToFloat4 p).w ≤ 255)) ∧
    (∀ d : Float4,
      dataFloat4ToUchar4 d =
        castUint d.x % 256 + 256 * (castUint d.y % 256) +
          65536 * (castUint d.z % 256) + 16777216 * (castUint d.w % 256)) := by
  constructor
  · intro p
    rw [dataUchar4ToFloat4_eq]
    refine ⟨⟨by positivity, ?_⟩, ⟨by positivity, ?_⟩,
      ⟨by positivity, ?_⟩, ⟨by positivity, ?_⟩⟩ <;>
      · dsimp only
        exact_mod_cast Nat.le_of_lt_succ (Nat.mod_lt _ (by norm_num))
  · exact dataFloat4ToUchar4_eq

/-
`kernel void ResizeBillinear`: bilinear resize of a single 8-bit plane
with edge clamping.  One invocation per destination pixel `(dx, dy)`.
`INC(x, l) = min(x + 1, l - 1)` is inlined.
-/

def ResizeBillinear (srcptr : ℤ → ℕ) (src_step src_rows src_cols : ℤ)
    (ifx ify : ℚ) (dstptr : ℤ → ℕ) (dst_step dst_rows dst_cols : ℤ)
    (dx dy : ℕ) : ℤ → ℕ :=
  let inv_fx : ℚ := 1 / ifx
  let inv_fy : ℚ := 1 / ify
  if (dx : ℤ) < dst_cols ∧ (dy : ℤ) < dst_rows then
    let sx : ℚ := ((dx : ℚ) + 1 / 2) * inv_fx - 1 / 2
    let sy : ℚ := ((dy : ℚ) + 1 / 2) * inv_fy - 1 / 2
    let x0 : ℤ := ⌊sx⌋
    let y0 : ℤ := ⌊sy⌋
    let u0 : ℚ := sx - x0
    let v0 : ℚ := sy - y0
    let x1 : ℤ := if x0 < 0 then 0 else x0
    let u1 : ℚ := if x0 < 0 then 0 else u0
    let x : ℤ := if x1 ≥ src_cols then src_cols - 1 else x1
    let u : ℚ := if x1 ≥ src_cols then 0 else u1
    let y1 : ℤ := if y0 < 0 then 0 else y0
    let v1 : ℚ := if y0 < 0 then 0 else v0
    let y : ℤ := if y1 ≥ src_rows then src_rows - 1 else y1
    let v : ℚ := if y1 ≥ src_rows then 0 else v1
    let y_ : ℤ := min (y + 1) (src_rows - 1)
    let x_ : ℤ := min (x + 1) (src_cols - 1)
    let data0 : ℕ := srcptr (y * src_step + x)
    let data1 : ℕ := srcptr (y * src_step + x_)
    let data2 : ℕ := srcptr (y_ * src_step + x)
    let data3 : ℕ := srcptr (y_ * src_step + x_)
    let fval : ℚ := (1 - u) * (1 - v) * data0 + u * (1 - v) * data1 +
      (1 - u) * v * data2 + u * v * data3
    let nOffSet : ℤ := (dy : ℤ) * dst_step + (dx : ℤ)
    let fval2 : ℚ := if fval + 1 / 2 ≤ 0 then 0 else fval + 1 / 2
    let pixel : ℕ := castUchar (if fval2 > 255 then 255 else fval2)
    Function.update dstptr nOffSet pixel
  else dstptr

/-- The spec's description of one resized pixel: source coordinate
`(dx+0.5)/fx - 0.5`, floor with fractional remainder, clamp to
`[0, src_cols-1]` zeroing the fraction when clamped, a second clamp on
the `+1` neighbours, bilinear weights, then round via `+0.5`, clamp to
`[0,255]` and truncate to a byte. -/
def resizePixelSpec (srcptr : ℤ → ℕ) (src_step src_rows src_cols : ℤ)
    (ifx ify : ℚ) (dx dy : ℕ) : ℕ :=
  let sx : ℚ := ((dx : ℚ) + 1 / 2) / ifx - 1 / 2
  let sy : ℚ := ((dy : ℚ) + 1 / 2) / ify - 1 / 2
  let xc : ℤ := max 0 (min (src_cols - 1) ⌊sx⌋)
  let yc : ℤ := max 0 (min (src_rows - 1) ⌊sy⌋)
  let u : ℚ := if ⌊sx⌋ < 0 ∨ src_cols ≤ ⌊sx⌋ then 0 else sx - ⌊sx⌋
  let v : ℚ := if ⌊sy⌋ < 0 ∨ src_rows ≤ ⌊sy⌋ then 0 else sy - ⌊sy⌋
  let x_ : ℤ := min (xc + 1) (src_cols - 1)
  let y_ : ℤ := min (yc + 1) (src_rows - 1)
  let fval : ℚ :=
    (1 - u) * (1 - v) * (srcptr (yc * src_step + xc)) +
      u * (1 - v) * (srcptr (yc * src_step + x_)) +
      (1 - u) * v * (srcptr (y_ * src_step + xc)) +
      u * v * (srcptr (y_ * src_step + x_))
  roundClampByte fval

theorem clampCoord_eq (x0 cols : ℤ) (hc : 0 < cols) :
    (if (if x0 < 0 then 0 else x0) ≥ cols then cols - 1
     else if x0 < 0 then 0 else x0) = max 0 (min (cols - 1) x0) := by
  split_ifs <;> omega

theorem clampFrac_eq (x0 : ℤ) (u0 : ℚ) (cols : ℤ) :
    (if (if x0 < 0 then (0 : ℤ) else x0) ≥ cols then (0 : ℚ)
     else if x0 < 0 then 0 else u0) =
      if x0 < 0 ∨ cols ≤ x0 then 0 else u0 := by
  split_ifs with h1 h2 h3 h3 <;> first | rfl | omega

theorem roundClamp_code_eq (q : ℚ) :
    castUchar (if (if q + 1 / 2 ≤ 0 then (0 : ℚ) else q + 1 / 2) > 255 then 255
               else if q + 1 / 2 ≤ 0 then 0 else q + 1 / 2) =
      roundClampByte q := by
  unfold castUchar roundClampByte
  rcases le_or_lt (q + 1 / 2) 0 with h | h
  · rw [if_pos h, if_neg (by norm_num : ¬((0 : ℚ) > 255))]
    have hf : ⌊q + 1 / 2⌋ ≤ 0 := Int.floor_nonpos h
    have hm : min 255 (max 0 ⌊q + 1 / 2⌋) = 0 := by omega
    rw [hm]
    unfold truncQ
    norm_num
  · rw [if_neg (not_le.mpr h)]
    have hf0 : 0 ≤ ⌊q + 1 / 2⌋ := Int.floor_nonneg.mpr (le_of_lt h)
    rcases lt_or_le (255 : ℚ) (q + 1 / 2) with h2 | h2
    · rw [if_pos h2]
      have hf : 255 ≤ ⌊q + 1 / 2⌋ := by
        rw [Int.le_floor]; exact_mod_cast le_of_lt h2
      have hm : min 255 (max 0 ⌊q + 1 / 2⌋) = 255 := by omega
      have h255 : truncQ (255 : ℚ) = 255 := by
        unfold truncQ
        rw [if_neg (by norm_num)]
        norm_num
      rw [hm, h255]
      decide
    · rw [if_neg (not_lt.mpr h2)]
      have hf : ⌊q + 1 / 2⌋ ≤ 255 := by
        have := Int.floor_le_floor h2
        simpa using this
      have hm : min 255 (max 0 ⌊q + 1 / 2⌋) = ⌊q + 1 / 2⌋ := by omega
      rw [hm, truncQ_nonneg _ (le_of_lt h)]
      exact Nat.mod_eq_of_lt (by omega)

/-- C5.  For an in-bounds destination pixel, `ResizeBillinear` stores at
row stride `dst_step` exactly the spec's pixel: source coordinates
`(d+0.5)/f - 0.5`, floor/fraction, the two edge clamps, bilinear
weights `(1-u)(1-v), u(1-v), (1-u)v, uv`, then round-clamp-truncate. -/
theorem ResizeBillinear_matches_spec (srcptr dstptr : ℤ → ℕ)
    (src_step src_rows src_cols dst_step dst_rows dst_cols : ℤ)
    (ifx ify : ℚ) (dx dy : ℕ)
    (hdx : (dx : ℤ) < dst_cols) (hdy : (dy : ℤ) < dst_rows)
    (hc : 0 < src_cols) (hr : 0 < src_rows) :
    ResizeBillinear srcptr src_step src_rows src_cols ifx ify dstptr
        dst_step dst_rows dst_cols dx dy ((dy : ℤ) * dst_step + (dx : ℤ)) =
      resizePixelSpec srcptr src_step src_rows src_cols ifx ify dx dy := by
  unfold ResizeBillinear resizePixelSpec
  rw [if_pos ⟨hdx, hdy⟩, Function.update_same]
  rw [show ((dx : ℚ) + 1 / 2) * (1 / ifx) - 1 / 2 =
      ((dx : ℚ) + 1 / 2) / ifx - 1 / 2 by ring,
    show ((dy : ℚ) + 1 / 2) * (1 / ify) - 1 / 2 =
      ((dy : ℚ) + 1 / 2) / ify - 1 / 2 by ring]
  rw [clampCoord_eq _ _ hc, clampCoord_eq _ _ hr,
    clampFrac_eq, clampFrac_eq, roundClamp_code_eq]

theorem ResizeBillinear_matches_spec_witness :
    (((0 : ℕ) : ℤ) < 1 ∧ (0 : ℤ) < 1) ∧
    ResizeBillinear (fun _ => 200) 1 1 1 1 1 (fun _ => 0) 1 1 1 0 0
        (((0 : ℕ) : ℤ) * 1 + ((0 : ℕ) : ℤ)) =
      resizePixelSpec (fun _ => 200) 1 1 1 1 1 0 0 :=
  ⟨⟨by norm_num, by norm_num⟩,
   ResizeBillinear_matches_spec (fun _ => 200) (fun _ => 0) 1 1 1 1 1 1 1 1
     0 0 (by norm_num) (by norm_num) (by norm_num) (by norm_num)⟩

/-
`kernel void GaussianBlur`: one invocation per column `nIdX`; the
invocation touches the word addresses `nIdX + row * iWidth`.
`YL_CL_CLAMP_TO_EDGE` is not defined anywhere in the source, so the
seeding of the filter state from the boundary pixels (`coefp`/`coefn`)
is compiled out and both passes start from zero state; the `coefp` and
`coefn` parameters are accordingly unused.

`gbFwdPass n` performs the first `n` iterations of the forward loop
(rows `0..n-1`), returning the written buffer and the state
`(xp, yp, yb)`.  `gbRevPass n` performs the first `n` iterations of the
reverse loop (rows `iHeight-1` down to `iHeight-n`), returning the
buffer and the state `(xn, xa, yn, ya)`; each iteration reads the
current contents of the output row and adds its anti-causal response
to it before re-packing.
-/

def gbFwdPass (puiDataInp : ℤ → ℕ) (nIdX iWidth : ℤ) (a0 a1 b1 b2 : ℚ) :
    ℕ → (ℤ → ℕ) → (ℤ → ℕ) × Float4 × Float4 × Float4
  | 0, out => (out, Float4.splat 0, Float4.splat 0, Float4.splat 0)
  | n + 1, out =>
      let s := gbFwdPass puiDataInp nIdX iWidth a0 a1 b1 b2 n out
      let xp := s.2.1
      let yp := s.2.2.1
      let yb := s.2.2.2
      let xc := dataUchar4ToFloat4 (puiDataInp (nIdX + (n : ℤ) * iWidth))
      let yc := xc.smul a0 + xp.smul a1 - yp.smul b1 - yb.smul b2
      (Function.update s.1 (nIdX + (n : ℤ) * iWidth) (dataFloat4ToUchar4 yc),
       xc, yc, yp)

def gbRevPass (puiDataInp : ℤ → ℕ) (nIdX iWidth : ℤ) (iHeight : ℕ)
    (a2 a3 b1 b2 : ℚ) :
    ℕ → (ℤ → ℕ) → (ℤ → ℕ) × Float4 × Float4 × Float4 × Float4
  | 0, out =>
      (out, Float4.splat 0, Float4.splat 0, Float4.splat 0, Float4.splat 0)
  | j + 1, out =>
      let s := gbRevPass puiDataInp nIdX iWidth iHeight a2 a3 b1 b2 j out
      let xn := s.2.1
      let xa := s.2.2.1
      let yn := s.2.2.2.1
      let ya := s.2.2.2.2
      let addr : ℤ := nIdX + ((iHeight - 1 - j : ℕ) : ℤ) * iWidth
      let xc := dataUchar4ToFloat4 (puiDataInp addr)
      let yc := xn.smul a2 + xa.smul a3 - yn.smul b1 - ya.smul b2
      let fTemp := dataUchar4ToFloat4 (s.1 addr) + yc
      (Function.update s.1 addr (dataFloat4ToUchar4 fTemp), xc, xn, yc, yn)

def GaussianBlur (puiDataInp : ℤ → ℕ) (iWidth iHeight : ℤ)
    (a0 a1 a2 a3 b1 b2 coefp coefn : ℚ) (nIdX : ℤ)
    (puiDataOut : ℤ → ℕ) : ℤ → ℕ :=
  if nIdX ≥ iWidth then puiDataOut
  else
    (gbRevPass puiDataInp nIdX iWidth iHeight.toNat a2 a3 b1 b2 iHeight.toNat
      (gbFwdPass puiDataInp nIdX iWidth a0 a1 b1 b2 iHeight.toNat
        puiDataOut).1).1

/-- The forward (causal) response of the filter on the sequence of
unpacked column values `cv`, per the spec recurrence
`yc = a0*xc + a1*xp - b1*yp - b2*yb` with zero-initialised state. -/
def gbFwdResp (cv : ℕ → Float4) (a0 a1 b1 b2 : ℚ) : ℕ → Float4
  | 0 => (cv 0).smul a0
  | 1 => (cv 1).smul a0 + (cv 0).smul a1 -
      (gbFwdResp cv a0 a1 b1 b2 0).smul b1
  | n + 2 => (cv (n + 2)).smul a0 + (cv (n + 1)).smul a1 -
      (gbFwdResp cv a0 a1 b1 b2 (n + 1)).smul b1 -
      (gbFwdResp cv a0 a1 b1 b2 n).smul b2

/-- The reverse (anti-causal) response on the bottom-up sequence of
unpacked column values `rv` (`rv j` is row `iHeight-1-j`), per the spec
recurrence `yc = a2*xn + a3*xa - b1*yn - b2*ya` with zero-initialised
state; the response of the first visited (bottom) row is zero. -/
def gbRevResp (rv : ℕ → Float4) (a2 a3 b1 b2 : ℚ) : ℕ → Float4
  | 0 => Float4.splat 0
  | 1 => (rv 0).smul a2
  | j + 2 => (rv (j + 1)).smul a2 + (rv j).smul a3 -
      (gbRevResp rv a2 a3 b1 b2 (j + 1)).smul b1 -
      (gbRevResp rv a2 a3 b1 b2 j).smul b2

theorem Float4.ext4 {a b : Float4} (hx : a.x = b.x) (hy : a.y = b.y)
    (hz : a.z = b.z) (hw : a.w = b.w) : a = b := by
  cases a; cases b
  simp_all

/- The `(xp, yp, yb)` state of the forward loop after `n` iterations,
expressed through the spec recurrence. -/

def gbXpState (cv : ℕ → Float4) : ℕ → Float4
  | 0 => Float4.splat 0
  | n + 1 => cv n

def gbYpState (cv : ℕ → Float4) (a0 a1 b1 b2 : ℚ) : ℕ → Float4
  | 0 => Float4.splat 0
  | n + 1 => gbFwdResp cv a0 a1 b1 b2 n

def gbYbState (cv : ℕ → Float4) (a0 a1 b1 b2 : ℚ) : ℕ → Float4
  | 0 => Float4.splat 0
  | n + 1 => gbYpState cv a0 a1 b1 b2 n

theorem gbFwdResp_comb (cv : ℕ → Float4) (a0 a1 b1 b2 : ℚ) (n : ℕ) :
    gbFwdResp cv a0 a1 b1 b2 n =
      (cv n).smul a0 + (gbXpState cv n).smul a1 -
        (gbYpState cv a0 a1 b1 b2 n).smul b1 -
        (gbYbState cv a0 a1 b1 b2 n).smul b2 := by
  match n with
  | 0 =>
      apply Float4.ext4 <;>
        simp [gbFwdResp, gbXpState, gbYpState, gbYbState, Float4.smul,
          Float4.splat, Float4.add_def, Float4.sub_def]
  | 1 =>
      apply Float4.ext4 <;>
        simp [gbFwdResp, gbXpState, gbYpState, gbYbState, Float4.smul,
          Float4.splat, Float4.add_def, Float4.sub_def]
  | n + 2 =>
      apply Float4.ext4 <;>
        simp [gbFwdResp, gbXpState, gbYpState, gbYbState, Float4.smul,
          Float4.splat, Float4.add_def, Float4.sub_def]

/- The `(xn, xa, yn, ya)` state of the reverse loop after `j`
iterations, expressed through the spec recurrence. -/

def gbXnState (rv : ℕ → Float4) : ℕ → Float4
  | 0 => Float4.splat 0
  | j + 1 => rv j

def gbXaState (rv : ℕ → Float4) : ℕ → Float4
  | 0 => Float4.splat 0
  | j + 1 => gbXnState rv j

def gbYnState (rv : ℕ → Float4) (a2 a3 b1 b2 : ℚ) : ℕ → Float4
  | 0 => Float4.splat 0
  | j + 1 => gbRevResp rv a2 a3 b1 b2 j

def gbYaState (rv : ℕ → Float4) (a2 a3 b1 b2 : ℚ) : ℕ → Float4
  | 0 => Float4.splat 0
  | j + 1 => gbYnState rv a2 a3 b1 b2 j

theorem gbRevResp_comb (rv : ℕ → Float4) (a2 a3 b1 b2 : ℚ) (j : ℕ) :
    gbRevResp rv a2 a3 b1 b2 j =
      (gbXnState rv j).smul a2 + (gbXaState rv j).smul a3 -
        (gbYnState rv a2 a3 b1 b2 j).smul b1 -
        (gbYaState rv a2 a3 b1 b2 j).smul b2 := by
  match j with
  | 0 =>
      apply Float4.ext4 <;>
        simp [gbRevResp, gbXnState, gbXaState, gbYnState, gbYaState,
          Float4.smul, Float4.splat, Float4.add_def, Float4.sub_def]
  | 1 =>
      apply Float4.ext4 <;>
        simp [gbRevResp, gbXnState, gbXaState, gbYnState, gbYaState,
          Float4.smul, Float4.splat, Float4.add_def, Float4.sub_def]
  | j + 2 =>
      apply Float4.ext4 <;>
        simp [gbRevResp, gbXnState, gbXaState, gbYnState, gbYaState,
          Float4.smul, Float4.splat, Float4.add_def, Float4.sub_def]

theorem col_addr_inj {x W : ℤ} (hW : 0 < W) {r r' : ℕ}
    (h : x + (r : ℤ) * W = x + (r' : ℤ) * W) : r = r' := by
  have h2 : (r : ℤ) * W = (r' : ℤ) * W := by omega
  have h3 : (r : ℤ) = (r' : ℤ) := mul_right_cancel₀ (ne_of_gt hW) h2
  exact_mod_cast h3

theorem gbFwdPass_state (inp : ℤ → ℕ) (x W : ℤ) (a0 a1 b1 b2 : ℚ)
    (out : ℤ → ℕ) (n : ℕ) :
    (gbFwdPass inp x W a0 a1 b1 b2 n out).2 =
      (gbXpState (fun k => dataUchar4ToFloat4 (inp (x + (k : ℤ) * W))) n,
       gbYpState (fun k => dataUchar4ToFloat4 (inp (x + (k : ℤ) * W))) a0 a1 b1 b2 n,
       gbYbState (fun k => dataUchar4ToFloat4 (inp (x + (k : ℤ) * W))) a0 a1 b1 b2 n) := by
  induction n with
  | zero => rfl
  | succ n ih =>
      have ih1 : (gbFwdPass inp x W a0 a1 b1 b2 n out).2.1 =
          gbXpState (fun k => dataUchar4ToFloat4 (inp (x + (k : ℤ) * W))) n := by
        rw [ih]
      have ih2 : (gbFwdPass inp x W a0 a1 b1 b2 n out).2.2.1 =
          gbYpState (fun k => dataUchar4ToFloat4 (inp (x + (k : ℤ) * W))) a0 a1 b1 b2 n := by
        rw [ih]
      have ih3 : (gbFwdPass inp x W a0 a1 b1 b2 n out).2.2.2 =
          gbYbState (fun k => dataUchar4ToFloat4 (inp (x + (k : ℤ) * W))) a0 a1 b1 b2 n := by
        rw [ih]
      simp only [gbFwdPass, ih1, ih2, ih3]
      rw [Prod.mk.injEq, Prod.mk.injEq]
      exact ⟨rfl,
        (gbFwdResp_comb (fun k => dataUchar4ToFloat4 (inp (x + (k : ℤ) * W)))
          a0 a1 b1 b2 n).symm, rfl⟩

theorem gbFwdPass_buffer (inp : ℤ → ℕ) (x W : ℤ) (a0 a1 b1 b2 : ℚ)
    (out : ℤ → ℕ) (hW : 0 < W) :
    ∀ n r, r < n →
      (gbFwdPass inp x W a0 a1 b1 b2 n out).1 (x + (r : ℤ) * W) =
        dataFloat4ToUchar4
          (gbFwdResp (fun k => dataUchar4ToFloat4 (inp (x + (k : ℤ) * W)))
            a0 a1 b1 b2 r) := by
  intro n
  induction n with
  | zero => omega
  | succ n ih =>
      intro r hr
      have ih1 : (gbFwdPass inp x W a0 a1 b1 b2 n out).2.1 =
          gbXpState (fun k => dataUchar4ToFloat4 (inp (x + (k : ℤ) * W))) n := by
        rw [gbFwdPass_state]
      have ih2 : (gbFwdPass inp x W a0 a1 b1 b2 n out).2.2.1 =
          gbYpState (fun k => dataUchar4ToFloat4 (inp (x + (k : ℤ) * W))) a0 a1 b1 b2 n := by
        rw [gbFwdPass_state]
      have ih3 : (gbFwdPass inp x W a0 a1 b1 b2 n out).2.2.2 =
          gbYbState (fun k => dataUchar4ToFloat4 (inp (x + (k : ℤ) * W))) a0 a1 b1 b2 n := by
        rw [gbFwdPass_state]
      simp only [gbFwdPass, ih1, ih2, ih3]
      rcases Nat.lt_or_ge r n with h | h
      · rw [Function.update_noteq
          (fun hc => absurd (col_addr_inj hW hc) (Nat.ne_of_lt h))]
        exact ih r h
      · have hrn : r = n := by omega
        subst hrn
        rw [Function.update_same]
        exact congrArg dataFloat4ToUchar4
          (gbFwdResp_comb (fun k => dataUchar4ToFloat4 (inp (x + (k : ℤ) * W)))
            a0 a1 b1 b2 r).symm

theorem gbRevPass_state (inp : ℤ → ℕ) (x W : ℤ) (H : ℕ) (a2 a3 b1 b2 : ℚ)
    (out : ℤ → ℕ) (j : ℕ) :
    (gbRevPass inp x W H a2 a3 b1 b2 j out).2 =
      (gbXnState (fun k => dataUchar4ToFloat4 (inp (x + ((H - 1 - k : ℕ) : ℤ) * W))) j,
       gbXaState (fun k => dataUchar4ToFloat4 (inp (x + ((H - 1 - k : ℕ) : ℤ) * W))) j,
       gbYnState (fun k => dataUchar4ToFloat4 (inp (x + ((H - 1 - k : ℕ) : ℤ) * W))) a2 a3 b1 b2 j,
       gbYaState (fun k => dataUchar4ToFloat4 (inp (x + ((H - 1 - k : ℕ) : ℤ) * W))) a2 a3 b1 b2 j) := by
  induction j with
  | zero => rfl
  | succ j ih =>
      have ih1 : (gbRevPass inp x W H a2 a3 b1 b2 j out).2.1 =
          gbXnState (fun k => dataUchar4ToFloat4 (inp (x + ((H - 1 - k : ℕ) : ℤ) * W))) j := by
        rw [ih]
      have ih2 : (gbRevPass inp x W H a2 a3 b1 b2 j out).2.2.1 =
          gbXaState (fun k => dataUchar4ToFloat4 (inp (x + ((H - 1 - k : ℕ) : ℤ) * W))) j := by
        rw [ih]
      have ih3 : (gbRevPass inp x W H a2 a3 b1 b2 j out).2.2.2.1 =
          gbYnState (fun k => dataUchar4ToFloat4 (inp (x + ((H - 1 - k : ℕ) : ℤ) * W))) a2 a3 b1 b2 j := by
        rw [ih]
      have ih4 : (gbRevPass inp x W H a2 a3 b1 b2 j out).2.2.2.2 =
          gbYaState (fun k => dataUchar4ToFloat4 (inp (x + ((H - 1 - k : ℕ) : ℤ) * W))) a2 a3 b1 b2 j := by
        rw [ih]
      simp only [gbRevPass, ih1, ih2, ih3, ih4]
      rw [Prod.mk.injEq, Prod.mk.injEq, Prod.mk.injEq]
      exact ⟨rfl, rfl,
        (gbRevResp_comb (fun k => dataUchar4ToFloat4 (inp (x + ((H - 1 - k : ℕ) : ℤ) * W)))
          a2 a3 b1 b2 j).symm, rfl⟩

theorem gbRevPass_buffer (inp : ℤ → ℕ) (x W : ℤ) (H : ℕ) (a2 a3 b1 b2 : ℚ)
    (out : ℤ → ℕ) (hW : 0 < W) :
    ∀ j, j ≤ H → ∀ r, r < H →
      (gbRevPass inp x W H a2 a3 b1 b2 j out).1 (x + (r : ℤ) * W) =
        if H - j ≤ r then
          dataFloat4ToUchar4 (dataUchar4ToFloat4 (out (x + (r : ℤ) * W)) +
            gbRevResp (fun k => dataUchar4ToFloat4 (inp (x + ((H - 1 - k : ℕ) : ℤ) * W)))
              a2 a3 b1 b2 (H - 1 - r))
        else out (x + (r : ℤ) * W) := by
  intro j
  induction j with
  | zero =>
      intro _ r hr
      rw [if_neg (by omega)]
      rfl
  | succ j ih =>
      intro hj r hr
      have ih1 : (gbRevPass inp x W H a2 a3 b1 b2 j out).2.1 =
          gbXnState (fun k => dataUchar4ToFloat4 (inp (x + ((H - 1 - k : ℕ) : ℤ) * W))) j := by
        rw [gbRevPass_state]
      have ih2 : (gbRevPass inp x W H a2 a3 b1 b2 j out).2.2.1 =
          gbXaState (fun k => dataUchar4ToFloat4 (inp (x + ((H - 1 - k : ℕ) : ℤ) * W))) j := by
        rw [gbRevPass_state]
      have ih3 : (gbRevPass inp x W H a2 a3 b1 b2 j out).2.2.2.1 =
          gbYnState (fun k => dataUchar4ToFloat4 (inp (x + ((H - 1 - k : ℕ) : ℤ) * W))) a2 a3 b1 b2 j := by
        rw [gbRevPass_state]
      have ih4 : (gbRevPass inp x W H a2 a3 b1 b2 j out).2.2.2.2 =
          gbYaState (fun k => dataUchar4ToFloat4 (inp (x + ((H - 1 - k : ℕ) : ℤ) * W))) a2 a3 b1 b2 j := by
        rw [gbRevPass_state]
      simp only [gbRevPass, ih1, ih2, ih3, ih4]
      by_cases hcur : r = H - 1 - j
      · subst hcur
        rw [Function.update_same,
          ih (by omega) (H - 1 - j) (by omega),
          if_neg (by omega : ¬(H - j ≤ H - 1 - j)),
          if_pos (by omega : H - (j + 1) ≤ H - 1 - j),
          (by omega : H - 1 - (H - 1 - j) = j),
          gbRevResp_comb (fun k => dataUchar4ToFloat4 (inp (x + ((H - 1 - k : ℕ) : ℤ) * W)))
            a2 a3 b1 b2 j]
      · rw [Function.update_noteq
          (fun hc => absurd (col_addr_inj hW hc) hcur),
          ih (by omega) r hr]
        by_cases hreg : H - j ≤ r
        · rw [if_pos hreg, if_pos (by omega : H - (j + 1) ≤ r)]
        · rw [if_neg hreg, if_neg (by omega : ¬(H - (j + 1) ≤ r))]

/-- C2.  For a column `nIdX < iWidth`, the forward pass of
`GaussianBlur` visits rows `0..iHeight-1` computing the causal
recurrence `yc = a0*xc + a1*xp - b1*yp - b2*yb` from zero-initialised
state and writes each packed `yc` to the output row; the reverse pass
then visits rows `iHeight-1..0` computing
`yc = a2*xn + a3*xa - b1*yn - b2*ya` from zero-initialised state and
adds (does not overwrite) this anti-causal response onto the value the
forward pass wrote, so each final word is the packed sum of the stored
forward response and the reverse response. -/
theorem GaussianBlur_forward_then_accumulate
    (inp out : ℤ → ℕ) (iWidth iHeight : ℤ)
    (a0 a1 a2 a3 b1 b2 coefp coefn : ℚ) (nIdX : ℤ)
    (hx : nIdX < iWidth) (hW : 0 < iWidth) (r : ℕ) (hr : r < iHeight.toNat) :
    (gbFwdPass inp nIdX iWidth a0 a1 b1 b2 iHeight.toNat out).1
        (nIdX + (r : ℤ) * iWidth) =
      dataFloat4ToUchar4
        (gbFwdResp (fun k => dataUchar4ToFloat4 (inp (nIdX + (k : ℤ) * iWidth)))
          a0 a1 b1 b2 r) ∧
    GaussianBlur inp iWidth iHeight a0 a1 a2 a3 b1 b2 coefp coefn nIdX out
        (nIdX + (r : ℤ) * iWidth) =
      dataFloat4ToUchar4
        (dataUchar4ToFloat4
            (dataFloat4ToUchar4
              (gbFwdResp
                (fun k => dataUchar4ToFloat4 (inp (nIdX + (k : ℤ) * iWidth)))
                a0 a1 b1 b2 r)) +
          gbRevResp
            (fun k => dataUchar4ToFloat4
              (inp (nIdX + ((iHeight.toNat - 1 - k : ℕ) : ℤ) * iWidth)))
            a2 a3 b1 b2 (iHeight.toNat - 1 - r)) := by
  have h1 := gbFwdPass_buffer inp nIdX iWidth a0 a1 b1 b2 out hW
    iHeight.toNat r hr
  refine ⟨h1, ?_⟩
  unfold GaussianBlur
  rw [if_neg (not_le.mpr hx),
    gbRevPass_buffer inp nIdX iWidth iHeight.toNat a2 a3 b1 b2 _ hW
      iHeight.toNat (le_refl _) r hr,
    if_pos (by omega : iHeight.toNat - iHeight.toNat ≤ r), h1]

theorem GaussianBlur_forward_then_accumulate_witness :
    ((0 : ℤ) < 1 ∧ (0 : ℤ) < 1 ∧ 0 < (1 : ℤ).toNat) ∧
    (gbFwdPass (fun _ => 5) 0 1 1 0 0 0 (1 : ℤ).toNat (fun _ => 0)).1
        (0 + ((0 : ℕ) : ℤ) * 1) =
      dataFloat4ToUchar4
        (gbFwdResp
          (fun k => dataUchar4ToFloat4 ((fun _ => 5) ((0 : ℤ) + (k : ℤ) * 1)))
          1 0 0 0 0) ∧
    GaussianBlur (fun _ => 5) 1 1 1 0 0 0 0 0 0 0 0 (fun _ => 0)
        (0 + ((0 : ℕ) : ℤ) * 1) =
      dataFloat4ToUchar4
        (dataUchar4ToFloat4
            (dataFloat4ToUchar4
              (gbFwdResp
                (fun k => dataUchar4ToFloat4 ((fun _ => 5) ((0 : ℤ) + (k : ℤ) * 1)))
                1 0 0 0 0)) +
          gbRevResp
            (fun k => dataUchar4ToFloat4
              ((fun _ => 5) ((0 : ℤ) + (((1 : ℤ).toNat - 1 - k : ℕ) : ℤ) * 1)))
            0 0 0 0 ((1 : ℤ).toNat - 1 - 0)) := by
  have h := GaussianBlur_forward_then_accumulate (fun _ => 5) (fun _ => 0)
    1 1 1 0 0 0 0 0 0 0 0 (by norm_num) (by norm_num) 0 (by decide)
  exact ⟨⟨by norm_num, by norm_num, by decide⟩, h.1, h.2⟩

/-- C10.  The reverse pass accumulates onto the already-quantized
forward output: each final word is
`pack (unpack (pack forward_yc) + reverse_yc)`.  On the concrete
one-column, two-row input below (channel value 1, `a0 = a2 = 1/2`) the
final top pixel is `0`, while `pack (forward_yc + reverse_yc)` computed
entirely in float is `1` — so the two differ in general. -/
theorem GaussianBlur_accumulates_on_quantized_output :
    (∀ (inp out : ℤ → ℕ) (iWidth iHeight : ℤ)
        (a0 a1 a2 a3 b1 b2 coefp coefn : ℚ) (nIdX : ℤ),
      nIdX < iWidth → 0 < iWidth → ∀ r : ℕ, r < iHeight.toNat →
      GaussianBlur inp iWidth iHeight a0 a1 a2 a3 b1 b2 coefp coefn nIdX out
          (nIdX + (r : ℤ) * iWidth) =
        dataFloat4ToUchar4
          (dataUchar4ToFloat4
              (dataFloat4ToUchar4
                (gbFwdResp
                  (fun k => dataUchar4ToFloat4 (inp (nIdX + (k : ℤ) * iWidth)))
                  a0 a1 b1 b2 r)) +
            gbRevResp
              (fun k => dataUchar4ToFloat4
                (inp (nIdX + ((iHeight.toNat - 1 - k : ℕ) : ℤ) * iWidth)))
              a2 a3 b1 b2 (iHeight.toNat - 1 - r))) ∧
    GaussianBlur (fun _ => 1) 1 2 (1 / 2) 0 (1 / 2) 0 0 0 0 0 0 (fun _ => 0)
        ((0 : ℤ) + ((0 : ℕ) : ℤ) * 1) = 0 ∧
    dataFloat4ToUchar4
        (gbFwdResp
            (fun k => dataUchar4ToFloat4 ((fun _ => 1) ((0 : ℤ) + (k : ℤ) * 1)))
            (1 / 2) 0 0 0 0 +
          gbRevResp
            (fun k => dataUchar4ToFloat4
              ((fun _ => 1) ((0 : ℤ) + (((2 : ℤ).toNat - 1 - k : ℕ) : ℤ) * 1)))
            (1 / 2) 0 0 0 ((2 : ℤ).toNat - 1 - 0)) = 1 := by
  have hu1 : dataUchar4ToFloat4 1 = ⟨1, 0, 0, 0⟩ := by
    rw [dataUchar4ToFloat4_eq]
    norm_num
  have hu0 : dataUchar4ToFloat4 0 = ⟨0, 0, 0, 0⟩ := by
    rw [dataUchar4ToFloat4_eq]
    norm_num
  have hcast0 : castUint 0 = 0 := by
    unfold castUint truncQ
    rw [if_neg (by norm_num)]
    norm_num
  have hcasthalf : castUint (1 / 2) = 0 := by
    unfold castUint truncQ
    rw [if_neg (by norm_num)]
    norm_num
  have hcast1 : castUint 1 = 1 := by
    unfold castUint truncQ
    rw [if_neg (by norm_num)]
    norm_num
  have hpackhalf : dataFloat4ToUchar4 ⟨1 / 2, 0, 0, 0⟩ = 0 := by
    rw [dataFloat4ToUchar4_eq]
    show castUint (1 / 2) % 256 + 256 * (castUint 0 % 256) +
      65536 * (castUint 0 % 256) + 16777216 * (castUint 0 % 256) = 0
    rw [hcasthalf, hcast0]
  have hpack1 : dataFloat4ToUchar4 ⟨1, 0, 0, 0⟩ = 1 := by
    rw [dataFloat4ToUchar4_eq]
    show castUint 1 % 256 + 256 * (castUint 0 % 256) +
      65536 * (castUint 0 % 256) + 16777216 * (castUint 0 % 256) = 1
    rw [hcast1, hcast0]
  have hfwdresp : gbFwdResp
      (fun k => dataUchar4ToFloat4 ((fun _ => 1) ((0 : ℤ) + (k : ℤ) * 1)))
      (1 / 2) 0 0 0 0 = ⟨1 / 2, 0, 0, 0⟩ := by
    show (dataUchar4ToFloat4 1).smul (1 / 2) = _
    rw [hu1]
    apply Float4.ext4 <;> simp [Float4.smul]
  have hrevresp : gbRevResp
      (fun k => dataUchar4ToFloat4
        ((fun _ => 1) ((0 : ℤ) + (((2 : ℤ).toNat - 1 - k : ℕ) : ℤ) * 1)))
      (1 / 2) 0 0 0 1 = ⟨1 / 2, 0, 0, 0⟩ := by
    show (dataUchar4ToFloat4 1).smul (1 / 2) = _
    rw [hu1]
    apply Float4.ext4 <;> simp [Float4.smul]
  refine ⟨?_, ?_, ?_⟩
  · intro inp out iWidth iHeight a0 a1 a2 a3 b1 b2 coefp coefn nIdX hx hW r hr
    unfold GaussianBlur
    rw [if_neg (not_le.mpr hx),
      gbRevPass_buffer inp nIdX iWidth iHeight.toNat a2 a3 b1 b2 _ hW
        iHeight.toNat (le_refl _) r hr,
      if_pos (by omega : iHeight.toNat - iHeight.toNat ≤ r),
      gbFwdPass_buffer inp nIdX iWidth a0 a1 b1 b2 out hW iHeight.toNat r hr]
  · unfold GaussianBlur
    rw [if_neg (by norm_num),
      gbRevPass_buffer (fun _ => 1) 0 1 (2 : ℤ).toNat (1 / 2) 0 0 0 _
        (by norm_num) (2 : ℤ).toNat (le_refl _) 0 (by decide),
      if_pos (by omega),
      gbFwdPass_buffer (fun _ => 1) 0 1 (1 / 2) 0 0 0 (fun _ => 0)
        (by norm_num) (2 : ℤ).toNat 0 (by decide),
      hfwdresp, hpackhalf, hu0,
      show (2 : ℤ).toNat - 1 - 0 = 1 from rfl, hrevresp,
      show (⟨0, 0, 0, 0⟩ : Float4) + ⟨1 / 2, 0, 0, 0⟩ = ⟨1 / 2, 0, 0, 0⟩ by
        apply Float4.ext4 <;> simp [Float4.add_def],
      hpackhalf]
  · rw [hfwdresp,
      show (2 : ℤ).toNat - 1 - 0 = 1 from rfl, hrevresp,
      show (⟨1 / 2, 0, 0, 0⟩ : Float4) + ⟨1 / 2, 0, 0, 0⟩ = ⟨1, 0, 0, 0⟩ by
        apply Float4.ext4 <;> norm_num [Float4.add_def],
      hpack1]

theorem GaussianBlur_accumulates_on_quantized_output_witness :
    ((0 : ℤ) < 1 ∧ (0 : ℤ) < 1 ∧ 0 < (1 : ℤ).toNat) ∧
    GaussianBlur (fun _ => 9) 1 1 1 0 0 0 0 0 0 0 0 (fun _ => 3)
        ((0 : ℤ) + ((0 : ℕ) : ℤ) * 1) =
      dataFloat4ToUchar4
        (dataUchar4ToFloat4
            (dataFloat4ToUchar4
              (gbFwdResp
                (fun k => dataUchar4ToFloat4 ((fun _ => 9) ((0 : ℤ) + (k : ℤ) * 1)))
                1 0 0 0 0)) +
          gbRevResp
            (fun k => dataUchar4ToFloat4
              ((fun _ => 9) ((0 : ℤ) + (((1 : ℤ).toNat - 1 - k : ℕ) : ℤ) * 1)))
            0 0 0 0 ((1 : ℤ).toNat - 1 - 0)) :=
  ⟨⟨by norm_num, by norm_num, by decide⟩,
   GaussianBlur_accumulates_on_quantized_output.1 (fun _ => 9) (fun _ => 3)
     1 1 1 0 0 0 0 0 0 0 0 (by norm_num) (by norm_num) 0 (by decide)⟩

/-
`kernel void Transpose`: tiled byte-matrix transpose.  `BLOCK_DIM = 16`,
so each threadgroup is 16×16 and thread `t < 256` of a group has
`localId = (t % 16, t / 16)`.  The staging array `block` (one per
threadgroup, row pitch `localSize.x + 1 = 17`) is filled by the load
phase; `threadgroup_barrier` separates the phases, so the store phase
is modelled as reading the fully loaded block.  A dispatch runs
`gridW × gridH` groups.
-/

def transposeBlock (idata : ℤ → ℕ) (width height : ℤ) (gX gY : ℕ) : ℤ → ℕ :=
  iterRows
    (fun t blk =>
      let lx : ℕ := t % 16
      let ly : ℕ := t / 16
      let xIndex : ℤ := gX * 16 + lx
      let yIndex : ℤ := gY * 16 + ly
      if xIndex < width ∧ yIndex < height then
        Function.update blk ((ly : ℤ) * 17 + lx) (idata (yIndex * width + xIndex))
      else blk)
    256 (fun _ => 0)

def transposeStoreStep (idata : ℤ → ℕ) (width height : ℤ) (gX gY : ℕ)
    (t : ℕ) (od : ℤ → ℕ) : ℤ → ℕ :=
  let lx : ℕ := t % 16
  let ly : ℕ := t / 16
  let xIndex : ℤ := gY * 16 + lx
  let yIndex : ℤ := gX * 16 + ly
  if xIndex < height ∧ yIndex < width then
    Function.update od (yIndex * height + xIndex)
      (transposeBlock idata width height gX gY ((lx : ℤ) * 17 + ly))
  else od

def transposeStore (idata : ℤ → ℕ) (width height : ℤ) (gX gY : ℕ)
    (odata : ℤ → ℕ) : ℤ → ℕ :=
  iterRows (transposeStoreStep idata width height gX gY) 256 odata

def Transpose (idata : ℤ → ℕ) (width height : ℤ) (gridW gridH : ℕ)
    (odata : ℤ → ℕ) : ℤ → ℕ :=
  runGrid2 (fun gX gY od => transposeStore idata width height gX gY od)
    gridW gridH odata

theorem transposeBlock_get (idata : ℤ → ℕ) (w h : ℤ) (gX gY a b : ℕ)
    (ha : a < 16) (hb : b < 16)
    (hxw : ((gX : ℤ) * 16 + (a : ℤ)) < w) (hyh : ((gY : ℤ) * 16 + (b : ℤ)) < h) :
    transposeBlock idata w h gX gY ((b : ℤ) * 17 + (a : ℤ)) =
      idata (((gY : ℤ) * 16 + (b : ℤ)) * w + ((gX : ℤ) * 16 + (a : ℤ))) := by
  unfold transposeBlock
  refine iterRows_obs_write _ (fun blk => blk ((b : ℤ) * 17 + (a : ℤ))) 256
    (b * 16 + a) _ (by omega) ?_ ?_ (fun _ => 0)
  · intro blk
    show (if ((gX : ℤ) * 16 + (((b * 16 + a) % 16 : ℕ) : ℤ)) < w ∧
            ((gY : ℤ) * 16 + (((b * 16 + a) / 16 : ℕ) : ℤ)) < h then
          Function.update blk ((((b * 16 + a) / 16 : ℕ) : ℤ) * 17 + (((b * 16 + a) % 16 : ℕ) : ℤ))
            (idata (((gY : ℤ) * 16 + (((b * 16 + a) / 16 : ℕ) : ℤ)) * w +
              ((gX : ℤ) * 16 + (((b * 16 + a) % 16 : ℕ) : ℤ))))
        else blk) ((b : ℤ) * 17 + (a : ℤ)) = _
    have e1 : (b * 16 + a) % 16 = a := by omega
    have e2 : (b * 16 + a) / 16 = b := by omega
    rw [e1, e2, if_pos ⟨hxw, hyh⟩, Function.update_same]
  · intro t ht1 ht2 blk
    show (if ((gX : ℤ) * 16 + ((t % 16 : ℕ) : ℤ)) < w ∧
            ((gY : ℤ) * 16 + ((t / 16 : ℕ) : ℤ)) < h then
          Function.update blk (((t / 16 : ℕ) : ℤ) * 17 + ((t % 16 : ℕ) : ℤ))
            (idata (((gY : ℤ) * 16 + ((t / 16 : ℕ) : ℤ)) * w +
              ((gX : ℤ) * 16 + ((t % 16 : ℕ) : ℤ))))
        else blk) ((b : ℤ) * 17 + (a : ℤ)) = blk ((b : ℤ) * 17 + (a : ℤ))
    by_cases hg : ((gX : ℤ) * 16 + ((t % 16 : ℕ) : ℤ)) < w ∧
        ((gY : ℤ) * 16 + ((t / 16 : ℕ) : ℤ)) < h
    · rw [if_pos hg, Function.update_noteq (by omega)]
    · rw [if_neg hg]

theorem transposeStoreStep_skip (idata : ℤ → ℕ) (width height : ℤ)
    (gX gY t : ℕ) (od : ℤ → ℕ) (p : ℤ)
    (hne : ((gY : ℤ) * 16 + ((t % 16 : ℕ) : ℤ)) < height →
      ((gX : ℤ) * 16 + ((t / 16 : ℕ) : ℤ)) < width →
      ((gX : ℤ) * 16 + ((t / 16 : ℕ) : ℤ)) * height +
        ((gY : ℤ) * 16 + ((t % 16 : ℕ) : ℤ)) ≠ p) :
    transposeStoreStep idata width height gX gY t od p = od p := by
  show (if ((gY : ℤ) * 16 + ((t % 16 : ℕ) : ℤ)) < height ∧
          ((gX : ℤ) * 16 + ((t / 16 : ℕ) : ℤ)) < width then
        Function.update od
          (((gX : ℤ) * 16 + ((t / 16 : ℕ) : ℤ)) * height +
            ((gY : ℤ) * 16 + ((t % 16 : ℕ) : ℤ)))
          (transposeBlock idata width height gX gY
            (((t % 16 : ℕ) : ℤ) * 17 + ((t / 16 : ℕ) : ℤ)))
      else od) p = od p
  by_cases hg : ((gY : ℤ) * 16 + ((t % 16 : ℕ) : ℤ)) < height ∧
      ((gX : ℤ) * 16 + ((t / 16 : ℕ) : ℤ)) < width
  · rw [if_pos hg]
    exact Function.update_noteq (Ne.symm (hne hg.1 hg.2)) _ od
  · rw [if_neg hg]

/-- C3.  `Transpose`, dispatched over any grid of 16×16 groups covering
the image, produces `dst[x][y] = src[y][x]` for every in-bounds pair
(destination buffer has `width` rows of `height` bytes), including when
`width` or `height` is not a multiple of the tile edge 16. -/
theorem Transpose_correct (idata odata : ℤ → ℕ) (width height : ℤ)
    (gridW gridH : ℕ) (x y : ℤ) (hx0 : 0 ≤ x) (hx : x < width)
    (hy0 : 0 ≤ y) (hy : y < height)
    (hgw : width ≤ (gridW : ℤ) * 16) (hgh : height ≤ (gridH : ℤ) * 16) :
    Transpose idata width height gridW gridH odata (x * height + y) =
      idata (y * width + x) := by
  unfold Transpose
  have ex : ((x.toNat / 16 : ℕ) : ℤ) * 16 + ((x.toNat % 16 : ℕ) : ℤ) = x := by
    omega
  have ey : ((y.toNat / 16 : ℕ) : ℤ) * 16 + ((y.toNat % 16 : ℕ) : ℤ) = y := by
    omega
  refine runGrid2_obs_write _ (fun od => od (x * height + y)) gridW gridH
    (x.toNat / 16) (y.toNat / 16) (idata (y * width + x))
    (by omega) (by omega) ?_ ?_ ?_ odata
  · intro od
    unfold transposeStore
    refine iterRows_obs_write _ (fun od => od (x * height + y)) 256
      ((x.toNat % 16) * 16 + (y.toNat % 16)) _ (by omega) ?_ ?_ od
    · intro od2
      unfold transposeStoreStep
      have e1 : ((x.toNat % 16) * 16 + (y.toNat % 16)) % 16 = y.toNat % 16 := by
        omega
      have e2 : ((x.toNat % 16) * 16 + (y.toNat % 16)) / 16 = x.toNat % 16 := by
        omega
      simp only [e1, e2]
      rw [ex, ey, if_pos ⟨hy, hx⟩]
      show Function.update od2 (x * height + y) _ (x * height + y) = _
      rw [Function.update_same,
        transposeBlock_get idata width height (x.toNat / 16) (y.toNat / 16)
          (x.toNat % 16) (y.toNat % 16) (by omega) (by omega)
          (by omega) (by omega),
        show (((y.toNat / 16 : ℕ) : ℤ) * 16 + ((y.toNat % 16 : ℕ) : ℤ)) * width +
            (((x.toNat / 16 : ℕ) : ℤ) * 16 + ((x.toNat % 16 : ℕ) : ℤ)) =
          y * width + x by rw [ex, ey]]
    · intro t ht1 ht2 od2
      apply transposeStoreStep_skip
      intro h1 h2 heq
      have hr := rowcol_inj (by positivity) h1 hy0 hy heq
      omega
  · intro gX hgx1 hgx2 od
    unfold transposeStore
    refine iterRows_obs_skip _ (fun od => od (x * height + y)) 256 ?_ od
    intro t ht od2
    apply transposeStoreStep_skip
    intro h1 h2 heq
    have hr := rowcol_inj (by positivity) h1 hy0 hy heq
    omega
  · intro gX gY hgx1 hgy1 hgy2 od
    unfold transposeStore
    refine iterRows_obs_skip _ (fun od => od (x * height + y)) 256 ?_ od
    intro t ht od2
    apply transposeStoreStep_skip
    intro h1 h2 heq
    have hr := rowcol_inj (by positivity) h1 hy0 hy heq
    omega

theorem Transpose_correct_witness :
    ((0 : ℤ) ≤ 4 ∧ (4 : ℤ) < 5 ∧ (0 : ℤ) ≤ 2 ∧ (2 : ℤ) < 3 ∧
      (5 : ℤ) ≤ ((1 : ℕ) : ℤ) * 16 ∧ (3 : ℤ) ≤ ((1 : ℕ) : ℤ) * 16) ∧
    Transpose (fun n => n.toNat) 5 3 1 1 (fun _ => 0) ((4 : ℤ) * 3 + 2) =
      (fun n : ℤ => n.toNat) ((2 : ℤ) * 5 + 4) :=
  ⟨⟨by norm_num, by norm_num, by norm_num, by norm_num, by norm_num,
    by norm_num⟩,
   Transpose_correct (fun n => n.toNat) (fun _ => 0) 5 3 1 1 4 2
     (by norm_num) (by norm_num) (by norm_num) (by norm_num)
     (by norm_num) (by norm_num)⟩

/-
Format converters.  The flat `srcConfig`/`dstConfig` arrays
(`CONFIG_WIDTH=0, CONFIG_HEIGHT=1, CONFIG_X=2, CONFIG_Y=3,
CONFIG_HALF_W=4, CONFIG_WH=5`) become the named fields of `ConvConfig`,
and `RectConfig` contributes the two scale factors `kx`/`ky`
(`RECT_KX`, `RECT_KY`; the squared entries are not read by these
kernels).  The even-alignment masking `coord & 0xfffffffe` (clear
bit 0 in two's complement) is modelled as `coord - coord % 2` with the
Euclidean `%`, which coincides with it for every integer; C truncating
division of the config fields is `Int.tdiv`.
-/

structure ConvConfig where
  width : ℤ
  height : ℤ
  ox : ℤ
  oy : ℤ
  halfW : ℤ
  wh : ℤ

/-- `kernel void ScaleConvert_NV12_I420`: NV12 to I420 with a bilinear
luma resample.  There is no bounds guard in this kernel: the only one
in the source (on the chroma path) is commented out. -/
def ScaleConvert_NV12_I420 (src : ℤ → ℕ) (srcConfig : ConvConfig)
    (dst_y dst_u dst_v : ℤ → ℕ) (dstConfig : ConvConfig) (kx ky : ℚ)
    (ix iy : ℕ) : (ℤ → ℕ) × (ℤ → ℕ) × (ℤ → ℕ) :=
  let srcCx : ℚ := (srcConfig.ox : ℚ) + (ix : ℚ) * kx
  let srcCy : ℚ := (srcConfig.oy : ℚ) + (iy : ℚ) * ky
  let dstCx : ℤ := (ix : ℤ) + dstConfig.ox
  let dstCy : ℤ := (iy : ℤ) + dstConfig.oy
  let sIx : ℤ := truncQ srcCx
  let sIy : ℤ := truncQ srcCy
  let decX : ℚ := srcCx - (sIx : ℚ)
  let decY : ℚ := srcCy - (sIy : ℚ)
  let srcNum : ℤ := sIy * srcConfig.width + sIx
  let dstNum : ℤ := dstCy * dstConfig.width + dstCx
  let x00 : ℕ := src srcNum
  let x10 : ℕ := src (srcNum + 1)
  let x01 : ℕ := src (srcNum + srcConfig.width)
  let x11 : ℕ := src (srcNum + srcConfig.width + 1)
  let b0 : ℕ := castUchar ((x00 : ℚ) + ((x01 : ℚ) - (x00 : ℚ)) * decY)
  let b1 : ℕ := castUchar ((x10 : ℚ) + ((x11 : ℚ) - (x10 : ℚ)) * decY)
  let lum : ℕ := castUchar ((b0 : ℚ) + ((b1 : ℚ) - (b0 : ℚ)) * decX)
  let dsty2 := Function.update dst_y dstNum lum
  if dstCx % 2 = 0 ∧ dstCy % 2 = 0 then
    let eIx : ℤ := sIx - sIx % 2
    let eIy : ℤ := sIy - sIy % 2
    let srcUVnum : ℤ := srcConfig.halfW * eIy + (eIx + srcConfig.wh)
    let nowUNum : ℤ := Int.tdiv dstConfig.width 4 * dstCy + Int.tdiv dstCx 2
    (dsty2, Function.update dst_u nowUNum (src srcUVnum),
      Function.update dst_v nowUNum (src (srcUVnum + 1)))
  else (dsty2, dst_u, dst_v)

/-- `kernel void NV12_I420` (the fast variant): nearest-neighbour luma
copy; early-returns when the destination row index `iy` reaches the
destination config's **width** field (`dstConfig[CONFIG_WIDTH]`), which
is the only guard it has. -/
def NV12_I420 (src : ℤ → ℕ) (srcConfig : ConvConfig)
    (dsty dstu dstv : ℤ → ℕ) (dstConfig : ConvConfig) (kx ky : ℚ)
    (ix iy : ℕ) : (ℤ → ℕ) × (ℤ → ℕ) × (ℤ → ℕ) :=
  if (iy : ℤ) ≥ dstConfig.width then (dsty, dstu, dstv)
  else
    let srcCx : ℚ := (srcConfig.ox : ℚ) + (ix : ℚ) * kx
    let srcCy : ℚ := (srcConfig.oy : ℚ) + (iy : ℚ) * ky
    let dstCx : ℤ := (ix : ℤ) + dstConfig.ox
    let dstCy : ℤ := (iy : ℤ) + dstConfig.oy
    let sIx : ℤ := truncQ srcCx
    let sIy : ℤ := truncQ srcCy
    let srcNum : ℤ := sIy * srcConfig.width + sIx
    let dstNum : ℤ := dstCy * dstConfig.width + dstCx
    let dsty2 := Function.update dsty dstNum (src srcNum)
    if dstCx % 2 = 0 ∧ dstCy % 2 = 0 then
      let eIx : ℤ := sIx - sIx % 2
      let eIy : ℤ := sIy - sIy % 2
      let srcUVnum : ℤ := srcConfig.halfW * eIy + (eIx + srcConfig.wh)
      let nowUNum : ℤ := Int.tdiv dstConfig.width 4 * dstCy + Int.tdiv dstCx 2
      (dsty2, Function.update dstu nowUNum (src srcUVnum),
        Function.update dstv nowUNum (src (srcUVnum + 1)))
    else (dsty2, dstu, dstv)

/-- `kernel void I420_NV12` (fast): guards against both out-of-range
row and column, copies luma, and writes chroma as an interleaved byte
pair at `halfWidth * y + x + chromaPlaneOffset`. -/
def I420_NV12 (srcy srcu srcv : ℤ → ℕ) (srcConfig : ConvConfig)
    (dst : ℤ → ℕ) (dstConfig : ConvConfig) (kx ky : ℚ)
    (ix iy : ℕ) : ℤ → ℕ :=
  if (iy : ℤ) ≥ srcConfig.height then dst
  else if (ix : ℤ) ≥ srcConfig.width then dst
  else
    let srcCx : ℚ := (srcConfig.ox : ℚ) + (ix : ℚ) * kx
    let srcCy : ℚ := (srcConfig.oy : ℚ) + (iy : ℚ) * ky
    let dstCx : ℤ := (ix : ℤ) + dstConfig.ox
    let dstCy : ℤ := (iy : ℤ) + dstConfig.oy
    let sIx : ℤ := truncQ srcCx
    let sIy : ℤ := truncQ srcCy
    let srcNum : ℤ := sIy * srcConfig.width + sIx
    let dstNum : ℤ := dstCy * dstConfig.width + dstCx
    let dst2 := Function.update dst dstNum (srcy srcNum)
    if dstCx % 2 = 0 ∧ dstCy % 2 = 0 then
      let eIx : ℤ := sIx - sIx % 2
      let eIy : ℤ := sIy - sIy % 2
      let nowUNum : ℤ := Int.tdiv srcConfig.width 4 * eIy + Int.tdiv eIx 2
      let dstUVnum : ℤ := dstConfig.halfW * dstCy + (dstCx + dstConfig.wh)
      Function.update (Function.update dst2 dstUVnum (srcu nowUNum))
        (dstUVnum + 1) (srcv nowUNum)
    else dst2

/-- A whole `NV12_I420` dispatch over a `W × H` grid. -/
def runNV12_I420 (src : ℤ → ℕ) (srcConfig dstConfig : ConvConfig)
    (kx ky : ℚ) (W H : ℕ)
    (bufs : (ℤ → ℕ) × (ℤ → ℕ) × (ℤ → ℕ)) :
    (ℤ → ℕ) × (ℤ → ℕ) × (ℤ → ℕ) :=
  runGrid2
    (fun ix iy b => NV12_I420 src srcConfig b.1 b.2.1 b.2.2 dstConfig kx ky ix iy)
    W H bufs

/-- A whole `I420_NV12` dispatch over a `W × H` grid. -/
def runI420_NV12 (srcy srcu srcv : ℤ → ℕ) (srcConfig dstConfig : ConvConfig)
    (kx ky : ℚ) (W H : ℕ) (dst : ℤ → ℕ) : ℤ → ℕ :=
  runGrid2
    (fun ix iy d => I420_NV12 srcy srcu srcv srcConfig d dstConfig kx ky ix iy)
    W H dst

theorem truncQ_zero_add_mul_one (n : ℕ) :
    truncQ (((0 : ℤ) : ℚ) + (n : ℚ) * 1) = (n : ℤ) := by
  rw [show ((0 : ℤ) : ℚ) + (n : ℚ) * 1 = (n : ℚ) by push_cast; ring]
  exact truncQ_natCast n

/-- `NV12_I420` under identity geometric parameters (scale factors 1,
zero origins): the rational coordinate arithmetic disappears. -/
theorem NV12_I420_ident (src : ℤ → ℕ) (sw sh shw swh dw dh dhw dwh : ℤ)
    (dsty dstu dstv : ℤ → ℕ) (ix iy : ℕ) (hdw : 0 ≤ dw) :
    NV12_I420 src ⟨sw, sh, 0, 0, shw, swh⟩ dsty dstu dstv
        ⟨dw, dh, 0, 0, dhw, dwh⟩ 1 1 ix iy =
      if (iy : ℤ) ≥ dw then (dsty, dstu, dstv)
      else if (ix : ℤ) % 2 = 0 ∧ (iy : ℤ) % 2 = 0 then
        (Function.update dsty ((iy : ℤ) * dw + (ix : ℤ)) (src ((iy : ℤ) * sw + (ix : ℤ))),
         Function.update dstu (dw / 4 * (iy : ℤ) + (ix : ℤ) / 2)
           (src (shw * (iy : ℤ) + ((ix : ℤ) + swh))),
         Function.update dstv (dw / 4 * (iy : ℤ) + (ix : ℤ) / 2)
           (src (shw * (iy : ℤ) + ((ix : ℤ) + swh) + 1)))
      else
        (Function.update dsty ((iy : ℤ) * dw + (ix : ℤ)) (src ((iy : ℤ) * sw + (ix : ℤ))),
         dstu, dstv) := by
  unfold NV12_I420
  dsimp only
  simp only [truncQ_zero_add_mul_one, add_zero]
  split_ifs with h1 h2
  · rfl
  · have e1 : (ix : ℤ) - (ix : ℤ) % 2 = (ix : ℤ) := by omega
    have e2 : (iy : ℤ) - (iy : ℤ) % 2 = (iy : ℤ) := by omega
    rw [e1, e2, Int.tdiv_eq_ediv hdw (by norm_num),
      Int.tdiv_eq_ediv (by positivity) (by norm_num)]
  · rfl

/-- `I420_NV12` under identity geometric parameters. -/
theorem I420_NV12_ident (srcy srcu srcv : ℤ → ℕ) (sw sh shw swh dw dh dhw dwh : ℤ)
    (dst : ℤ → ℕ) (ix iy : ℕ) (hsw : 0 ≤ sw) :
    I420_NV12 srcy srcu srcv ⟨sw, sh, 0, 0, shw, swh⟩ dst
        ⟨dw, dh, 0, 0, dhw, dwh⟩ 1 1 ix iy =
      if (iy : ℤ) ≥ sh then dst
      else if (ix : ℤ) ≥ sw then dst
      else if (ix : ℤ) % 2 = 0 ∧ (iy : ℤ) % 2 = 0 then
        Function.update
          (Function.update
            (Function.update dst ((iy : ℤ) * dw + (ix : ℤ)) (srcy ((iy : ℤ) * sw + (ix : ℤ))))
            (dhw * (iy : ℤ) + ((ix : ℤ) + dwh))
            (srcu (sw / 4 * (iy : ℤ) + (ix : ℤ) / 2)))
          (dhw * (iy : ℤ) + ((ix : ℤ) + dwh) + 1)
          (srcv (sw / 4 * (iy : ℤ) + (ix : ℤ) / 2))
      else
        Function.update dst ((iy : ℤ) * dw + (ix : ℤ)) (srcy ((iy : ℤ) * sw + (ix : ℤ))) := by
  unfold I420_NV12
  dsimp only
  simp only [truncQ_zero_add_mul_one, add_zero]
  split_ifs with h1 h2 h3
  · rfl
  · rfl
  · have e1 : (ix : ℤ) - (ix : ℤ) % 2 = (ix : ℤ) := by omega
    have e2 : (iy : ℤ) - (iy : ℤ) % 2 = (iy : ℤ) := by omega
    rw [e1, e2, Int.tdiv_eq_ediv hsw (by norm_num),
      Int.tdiv_eq_ediv (by positivity) (by norm_num)]
  · rfl

theorem rowcol_inj_nat (w x x' y y' : ℕ) (hx : x < w) (hx' : x' < w)
    (h : y * w + x = y' * w + x') : y = y' ∧ x = x' := by
  have hz : (y : ℤ) * w + x = (y' : ℤ) * w + x' := by exact_mod_cast h
  have hi := rowcol_inj (by positivity) (by exact_mod_cast hx)
    (by positivity) (by exact_mod_cast hx') hz
  exact ⟨by exact_mod_cast hi.1, by exact_mod_cast hi.2⟩

theorem addr_lt_plane (x y w h : ℕ) (hx : x < w) (hy : y < h) :
    y * w + x < w * h := by
  have h1 : (y + 1) * w = y * w + w := by ring
  have h2 : (y + 1) * w ≤ h * w := Nat.mul_le_mul_right w hy
  have h3 : h * w = w * h := Nat.mul_comm h w
  omega

/-- Injectivity of the planar chroma address `w/4 * y + x/2` over
even coordinates when `w` is a multiple of 4. -/
theorem chroma_slot_inj (w x x' y y' : ℕ) (h4 : w % 4 = 0)
    (hx : x < w) (hx' : x' < w) (hxe : x % 2 = 0) (hxe' : x' % 2 = 0)
    (hye : y % 2 = 0) (hye' : y' % 2 = 0)
    (heq : w / 4 * y + x / 2 = w / 4 * y' + x' / 2) : y = y' ∧ x = x' := by
  obtain ⟨k, hk⟩ : ∃ k, w = 4 * k := ⟨w / 4, by omega⟩
  obtain ⟨m, hm⟩ : ∃ m, y = 2 * m := ⟨y / 2, by omega⟩
  obtain ⟨m', hm'⟩ : ∃ m', y' = 2 * m' := ⟨y' / 2, by omega⟩
  subst hk hm hm'
  have h1 : 4 * k / 4 = k := by omega
  rw [h1, show k * (2 * m) = m * (2 * k) by ring,
    show k * (2 * m') = m' * (2 * k) by ring] at heq
  have hi := rowcol_inj_nat (2 * k) (x / 2) (x' / 2) m m'
    (by omega) (by omega) heq
  omega

/-- Injectivity of the interleaved chroma address `w/2 * y + x` over
even rows when `w` is even. -/
theorem ichroma_addr_inj (w x x' y y' : ℕ) (h2 : w % 2 = 0)
    (hx : x < w) (hx' : x' < w) (hye : y % 2 = 0) (hye' : y' % 2 = 0)
    (heq : w / 2 * y + x = w / 2 * y' + x') : y = y' ∧ x = x' := by
  obtain ⟨k, hk⟩ : ∃ k, w = 2 * k := ⟨w / 2, by omega⟩
  obtain ⟨m, hm⟩ : ∃ m, y = 2 * m := ⟨y / 2, by omega⟩
  obtain ⟨m', hm'⟩ : ∃ m', y' = 2 * m' := ⟨y' / 2, by omega⟩
  subst hk hm hm'
  have h1 : 2 * k / 2 = k := by omega
  rw [h1, show k * (2 * m) = m * (2 * k) by ring,
    show k * (2 * m') = m' * (2 * k) by ring] at heq
  have hi := rowcol_inj_nat (2 * k) x x' m m' hx hx' heq
  omega

/-- The standard NV12/I420 plane geometry for a `w × h` image at zero
origin: chroma pitch `w/2`, chroma plane offset `w*h`. -/
def stdConfig (w h : ℕ) : ConvConfig :=
  ⟨(w : ℤ), (h : ℤ), 0, 0, ((w / 2 : ℕ) : ℤ), ((w * h : ℕ) : ℤ)⟩

theorem runNV12_I420_luma (src : ℤ → ℕ) (w h : ℕ)
    (bufs : (ℤ → ℕ) × (ℤ → ℕ) × (ℤ → ℕ)) (x y : ℕ)
    (hx : x < w) (hy : y < h) (hhw : h ≤ w) :
    (runNV12_I420 src (stdConfig w h) (stdConfig w h) 1 1 w h bufs).1
        ((y * w + x : ℕ) : ℤ) = src ((y * w + x : ℕ) : ℤ) := by
  unfold runNV12_I420 stdConfig
  have hcast : ((y * w + x : ℕ) : ℤ) = (y : ℤ) * (w : ℤ) + (x : ℤ) := by
    push_cast
    ring
  rw [hcast]
  have hguard : ¬((y : ℤ) ≥ (w : ℤ)) := by
    rw [not_le]
    exact_mod_cast lt_of_lt_of_le hy hhw
  refine runGrid2_obs_write _ (fun b => b.1 ((y : ℤ) * w + x)) w h x y
    (src ((y : ℤ) * w + x)) hx hy ?_ ?_ ?_ bufs
  · intro b
    rw [NV12_I420_ident src w h ((w / 2 : ℕ) : ℤ) ((w * h : ℕ) : ℤ)
      w h ((w / 2 : ℕ) : ℤ) ((w * h : ℕ) : ℤ) b.1 b.2.1 b.2.2 x y (by positivity),
      if_neg hguard]
    by_cases he : (x : ℤ) % 2 = 0 ∧ (y : ℤ) % 2 = 0
    · rw [if_pos he]
      exact Function.update_same _ _ _
    · rw [if_neg he]
      exact Function.update_same _ _ _
  · intro ix' h1 h2 b
    rw [NV12_I420_ident src w h ((w / 2 : ℕ) : ℤ) ((w * h : ℕ) : ℤ)
      w h ((w / 2 : ℕ) : ℤ) ((w * h : ℕ) : ℤ) b.1 b.2.1 b.2.2 ix' y (by positivity),
      if_neg hguard]
    have hne : ((y : ℤ) * w + (x : ℤ)) ≠ ((y : ℤ) * w + (ix' : ℤ)) := by
      intro hc
      omega
    by_cases he : (ix' : ℤ) % 2 = 0 ∧ (y : ℤ) % 2 = 0
    · rw [if_pos he]
      exact Function.update_noteq hne _ _
    · rw [if_neg he]
      exact Function.update_noteq hne _ _
  · intro ix' iy' h1 h2 h3 b
    have hguard' : ¬((iy' : ℤ) ≥ (w : ℤ)) := by
      rw [not_le]
      exact_mod_cast lt_of_lt_of_le h2 hhw
    rw [NV12_I420_ident src w h ((w / 2 : ℕ) : ℤ) ((w * h : ℕ) : ℤ)
      w h ((w / 2 : ℕ) : ℤ) ((w * h : ℕ) : ℤ) b.1 b.2.1 b.2.2 ix' iy' (by positivity),
      if_neg hguard']
    have hne : ((y : ℤ) * w + (x : ℤ)) ≠ ((iy' : ℤ) * w + (ix' : ℤ)) := by
      intro hc
      have hi := rowcol_inj (by positivity) (by exact_mod_cast hx)
        (by positivity) (by exact_mod_cast h1) hc
      have : y = iy' := by exact_mod_cast hi.1
      omega
    by_cases he : (ix' : ℤ) % 2 = 0 ∧ (iy' : ℤ) % 2 = 0
    · rw [if_pos he]
      exact Function.update_noteq hne _ _
    · rw [if_neg he]
      exact Function.update_noteq hne _ _

theorem runNV12_I420_chromaU (src : ℤ → ℕ) (w h : ℕ)
    (bufs : (ℤ → ℕ) × (ℤ → ℕ) × (ℤ → ℕ)) (x y : ℕ)
    (hx : x < w) (hy : y < h) (hhw : h ≤ w) (h4 : w % 4 = 0)
    (hxe : x % 2 = 0) (hye : y % 2 = 0) :
    (runNV12_I420 src (stdConfig w h) (stdConfig w h) 1 1 w h bufs).2.1
        ((w / 4 * y + x / 2 : ℕ) : ℤ) =
      src ((w * h + w / 2 * y + x : ℕ) : ℤ) := by
  unfold runNV12_I420 stdConfig
  have hcast : ((w / 4 * y + x / 2 : ℕ) : ℤ) =
      (w : ℤ) / 4 * (y : ℤ) + (x : ℤ) / 2 := by
    push_cast
    ring
  have vcast : ((w * h + w / 2 * y + x : ℕ) : ℤ) =
      ((w / 2 : ℕ) : ℤ) * (y : ℤ) + ((x : ℤ) + ((w * h : ℕ) : ℤ)) := by
    push_cast
    ring
  rw [hcast, vcast]
  have hguard : ¬((y : ℤ) ≥ (w : ℤ)) := by
    rw [not_le]
    exact_mod_cast lt_of_lt_of_le hy hhw
  refine runGrid2_obs_write _
    (fun b => b.2.1 ((w : ℤ) / 4 * (y : ℤ) + (x : ℤ) / 2)) w h x y
    (src (((w / 2 : ℕ) : ℤ) * (y : ℤ) + ((x : ℤ) + ((w * h : ℕ) : ℤ))))
    hx hy ?_ ?_ ?_ bufs
  · intro b
    rw [NV12_I420_ident src w h ((w / 2 : ℕ) : ℤ) ((w * h : ℕ) : ℤ)
      w h ((w / 2 : ℕ) : ℤ) ((w * h : ℕ) : ℤ) b.1 b.2.1 b.2.2 x y (by positivity),
      if_neg hguard, if_pos ⟨by omega, by omega⟩]
    exact Function.update_same _ _ _
  · intro ix' h1 h2 b
    rw [NV12_I420_ident src w h ((w / 2 : ℕ) : ℤ) ((w * h : ℕ) : ℤ)
      w h ((w / 2 : ℕ) : ℤ) ((w * h : ℕ) : ℤ) b.1 b.2.1 b.2.2 ix' y (by positivity),
      if_neg hguard]
    by_cases he : (ix' : ℤ) % 2 = 0 ∧ (y : ℤ) % 2 = 0
    · rw [if_pos he]
      refine Function.update_noteq (fun hc => ?_) _ _
      have hcn : w / 4 * y + x / 2 = w / 4 * y + ix' / 2 := by
        exact_mod_cast hc
      have hi := chroma_slot_inj w x ix' y y h4 hx h1 hxe (by omega) hye hye hcn
      omega
    · rw [if_neg he]
  · intro ix' iy' h1 h2 h3 b
    have hguard' : ¬((iy' : ℤ) ≥ (w : ℤ)) := by
      rw [not_le]
      exact_mod_cast lt_of_lt_of_le h2 hhw
    rw [NV12_I420_ident src w h ((w / 2 : ℕ) : ℤ) ((w * h : ℕ) : ℤ)
      w h ((w / 2 : ℕ) : ℤ) ((w * h : ℕ) : ℤ) b.1 b.2.1 b.2.2 ix' iy' (by positivity),
      if_neg hguard']
    by_cases he : (ix' : ℤ) % 2 = 0 ∧ (iy' : ℤ) % 2 = 0
    · rw [if_pos he]
      refine Function.update_noteq (fun hc => ?_) _ _
      have hcn : w / 4 * y + x / 2 = w / 4 * iy' + ix' / 2 := by
        exact_mod_cast hc
      have hi := chroma_slot_inj w x ix' y iy' h4 hx h1 hxe (by omega)
        hye (by omega) hcn
      omega
    · rw [if_neg he]

theorem runNV12_I420_chromaV (src : ℤ → ℕ) (w h : ℕ)
    (bufs : (ℤ → ℕ) × (ℤ → ℕ) × (ℤ → ℕ)) (x y : ℕ)
    (hx : x < w) (hy : y < h) (hhw : h ≤ w) (h4 : w % 4 = 0)
    (hxe : x % 2 = 0) (hye : y % 2 = 0) :
    (runNV12_I420 src (stdConfig w h) (stdConfig w h) 1 1 w h bufs).2.2
        ((w / 4 * y + x / 2 : ℕ) : ℤ) =
      src ((w * h + w / 2 * y + x + 1 : ℕ) : ℤ) := by
  unfold runNV12_I420 stdConfig
  have hcast : ((w / 4 * y + x / 2 : ℕ) : ℤ) =
      (w : ℤ) / 4 * (y : ℤ) + (x : ℤ) / 2 := by
    push_cast
    ring
  have vcast : ((w * h + w / 2 * y + x + 1 : ℕ) : ℤ) =
      ((w / 2 : ℕ) : ℤ) * (y : ℤ) + ((x : ℤ) + ((w * h : ℕ) : ℤ)) + 1 := by
    push_cast
    ring
  rw [hcast, vcast]
  have hguard : ¬((y : ℤ) ≥ (w : ℤ)) := by
    rw [not_le]
    exact_mod_cast lt_of_lt_of_le hy hhw
  refine runGrid2_obs_write _
    (fun b => b.2.2 ((w : ℤ) / 4 * (y : ℤ) + (x : ℤ) / 2)) w h x y
    (src (((w / 2 : ℕ) : ℤ) * (y : ℤ) + ((x : ℤ) + ((w * h : ℕ) : ℤ)) + 1))
    hx hy ?_ ?_ ?_ bufs
  · intro b
    rw [NV12_I420_ident src w h ((w / 2 : ℕ) : ℤ) ((w * h : ℕ) : ℤ)
      w h ((w / 2 : ℕ) : ℤ) ((w * h : ℕ) : ℤ) b.1 b.2.1 b.2.2 x y (by positivity),
      if_neg hguard, if_pos ⟨by omega, by omega⟩]
    exact Function.update_same _ _ _
  · intro ix' h1 h2 b
    rw [NV12_I420_ident src w h ((w / 2 : ℕ) : ℤ) ((w * h : ℕ) : ℤ)
      w h ((w / 2 : ℕ) : ℤ) ((w * h : ℕ) : ℤ) b.1 b.2.1 b.2.2 ix' y (by positivity),
      if_neg hguard]
    by_cases he : (ix' : ℤ) % 2 = 0 ∧ (y : ℤ) % 2 = 0
    · rw [if_pos he]
      refine Function.update_noteq (fun hc => ?_) _ _
      have hcn : w / 4 * y + x / 2 = w / 4 * y + ix' / 2 := by
        exact_mod_cast hc
      have hi := chroma_slot_inj w x ix' y y h4 hx h1 hxe (by omega) hye hye hcn
      omega
    · rw [if_neg he]
  · intro ix' iy' h1 h2 h3 b
    have hguard' : ¬((iy' : ℤ) ≥ (w : ℤ)) := by
      rw [not_le]
      exact_mod_cast lt_of_lt_of_le h2 hhw
    rw [NV12_I420_ident src w h ((w / 2 : ℕ) : ℤ) ((w * h : ℕ) : ℤ)
      w h ((w / 2 : ℕ) : ℤ) ((w * h : ℕ) : ℤ) b.1 b.2.1 b.2.2 ix' iy' (by positivity),
      if_neg hguard']
    by_cases he : (ix' : ℤ) % 2 = 0 ∧ (iy' : ℤ) % 2 = 0
    · rw [if_pos he]
      refine Function.update_noteq (fun hc => ?_) _ _
      have hcn : w / 4 * y + x / 2 = w / 4 * iy' + ix' / 2 := by
        exact_mod_cast hc
      have hi := chroma_slot_inj w x ix' y iy' h4 hx h1 hxe (by omega)
        hye (by omega) hcn
      omega
    · rw [if_neg he]

/-- C6 amended.  For an NV12 image whose width is a multiple of 4,
whose height is even and at most the width (so that `NV12_I420`'s
row-versus-width guard never fires), converting with the fast
`NV12_I420` and back with `I420_NV12` under identity geometric
parameters reproduces the image byte-for-byte: every luma byte and
every interleaved-chroma byte. -/
theorem NV12_I420_roundtrip (src d0 : ℤ → ℕ)
    (bufs : (ℤ → ℕ) × (ℤ → ℕ) × (ℤ → ℕ)) (w h : ℕ)
    (h4 : w % 4 = 0) (hh2 : h % 2 = 0) (hhw : h ≤ w) :
    (∀ x y, x < w → y < h →
      runI420_NV12
        (runNV12_I420 src (stdConfig w h) (stdConfig w h) 1 1 w h bufs).1
        (runNV12_I420 src (stdConfig w h) (stdConfig w h) 1 1 w h bufs).2.1
        (runNV12_I420 src (stdConfig w h) (stdConfig w h) 1 1 w h bufs).2.2
        (stdConfig w h) (stdConfig w h) 1 1 w h d0 ((y * w + x : ℕ) : ℤ) =
      src ((y * w + x : ℕ) : ℤ)) ∧
    (∀ x y, x < w → y < h → y % 2 = 0 →
      runI420_NV12
        (runNV12_I420 src (stdConfig w h) (stdConfig w h) 1 1 w h bufs).1
        (runNV12_I420 src (stdConfig w h) (stdConfig w h) 1 1 w h bufs).2.1
        (runNV12_I420 src (stdConfig w h) (stdConfig w h) 1 1 w h bufs).2.2
        (stdConfig w h) (stdConfig w h) 1 1 w h d0
        ((w * h + w / 2 * y + x : ℕ) : ℤ) =
      src ((w * h + w / 2 * y + x : ℕ) : ℤ)) := by
  have hw2 : w % 2 = 0 := by omega
  constructor
  · intro x y hx hy
    have hcast : ((y * w + x : ℕ) : ℤ) = (y : ℤ) * (w : ℤ) + (x : ℤ) := by
      push_cast
      ring
    have hlt : ((y : ℤ) * (w : ℤ) + (x : ℤ)) < ((w * h : ℕ) : ℤ) := by
      have := addr_lt_plane x y w h hx hy
      rw [hcast.symm]
      exact_mod_cast this
    conv_lhs => rw [hcast]
    unfold runI420_NV12
    refine runGrid2_obs_write _ (fun d => d ((y : ℤ) * w + x)) w h x y
      (src ((y * w + x : ℕ) : ℤ)) hx hy ?_ ?_ ?_ d0
    · intro d
      show (I420_NV12 _ _ _ (stdConfig w h) d (stdConfig w h) 1 1 x y)
          ((y : ℤ) * w + x) = _
      unfold stdConfig
      rw [I420_NV12_ident _ _ _ w h ((w / 2 : ℕ) : ℤ) ((w * h : ℕ) : ℤ)
        w h ((w / 2 : ℕ) : ℤ) ((w * h : ℕ) : ℤ) d x y (by positivity),
        if_neg (by rw [not_le]; exact_mod_cast hy),
        if_neg (by rw [not_le]; exact_mod_cast hx)]
      have hp : (0 : ℤ) ≤ ((w / 2 : ℕ) : ℤ) * (y : ℤ) := by positivity
      have hlum : (runNV12_I420 src ⟨(w : ℤ), (h : ℤ), 0, 0, ((w / 2 : ℕ) : ℤ),
          ((w * h : ℕ) : ℤ)⟩ ⟨(w : ℤ), (h : ℤ), 0, 0, ((w / 2 : ℕ) : ℤ),
          ((w * h : ℕ) : ℤ)⟩ 1 1 w h bufs).1 ((y : ℤ) * w + x) =
          src ((y * w + x : ℕ) : ℤ) := by
        rw [← hcast]
        exact runNV12_I420_luma src w h bufs x y hx hy hhw
      by_cases he : (x : ℤ) % 2 = 0 ∧ (y : ℤ) % 2 = 0
      · rw [if_pos he]
        have hne1 : ((y : ℤ) * w + (x : ℤ)) ≠
            ((w / 2 : ℕ) : ℤ) * (y : ℤ) + ((x : ℤ) + ((w * h : ℕ) : ℤ)) + 1 := by
          omega
        have hne2 : ((y : ℤ) * w + (x : ℤ)) ≠
            ((w / 2 : ℕ) : ℤ) * (y : ℤ) + ((x : ℤ) + ((w * h : ℕ) : ℤ)) := by
          omega
        exact ((Function.update_noteq hne1 _ _).trans
          ((Function.update_noteq hne2 _ _).trans
            (Function.update_same _ _ _))).trans hlum
      · rw [if_neg he]
        exact (Function.update_same _ _ _).trans hlum
    · intro ix' h1 h2 d
      unfold stdConfig
      rw [I420_NV12_ident _ _ _ w h ((w / 2 : ℕ) : ℤ) ((w * h : ℕ) : ℤ)
        w h ((w / 2 : ℕ) : ℤ) ((w * h : ℕ) : ℤ) d ix' y (by positivity),
        if_neg (by rw [not_le]; exact_mod_cast hy),
        if_neg (by rw [not_le]; exact_mod_cast h1)]
      have hp : (0 : ℤ) ≤ ((w / 2 : ℕ) : ℤ) * (y : ℤ) := by positivity
      have hlne : ((y : ℤ) * w + (x : ℤ)) ≠ ((y : ℤ) * w + (ix' : ℤ)) := by
        intro hc
        omega
      by_cases he : (ix' : ℤ) % 2 = 0 ∧ (y : ℤ) % 2 = 0
      · rw [if_pos he]
        have hne1 : ((y : ℤ) * w + (x : ℤ)) ≠
            ((w / 2 : ℕ) : ℤ) * (y : ℤ) + ((ix' : ℤ) + ((w * h : ℕ) : ℤ)) + 1 := by
          omega
        have hne2 : ((y : ℤ) * w + (x : ℤ)) ≠
            ((w / 2 : ℕ) : ℤ) * (y : ℤ) + ((ix' : ℤ) + ((w * h : ℕ) : ℤ)) := by
          omega
        exact (Function.update_noteq hne1 _ _).trans
          ((Function.update_noteq hne2 _ _).trans
            (Function.update_noteq hlne _ _))
      · rw [if_neg he]
        exact Function.update_noteq hlne _ _
    · intro ix' iy' h1 h2 h3 d
      unfold stdConfig
      rw [I420_NV12_ident _ _ _ w h ((w / 2 : ℕ) : ℤ) ((w * h : ℕ) : ℤ)
        w h ((w / 2 : ℕ) : ℤ) ((w * h : ℕ) : ℤ) d ix' iy' (by positivity),
        if_neg (by rw [not_le]; exact_mod_cast h2),
        if_neg (by rw [not_le]; exact_mod_cast h1)]
      have hp : (0 : ℤ) ≤ ((w / 2 : ℕ) : ℤ) * (iy' : ℤ) := by positivity
      have hlne : ((y : ℤ) * w + (x : ℤ)) ≠ ((iy' : ℤ) * w + (ix' : ℤ)) := by
        intro hc
        have hi := rowcol_inj (by positivity) (by exact_mod_cast hx)
          (by positivity) (by exact_mod_cast h1) hc
        have : y = iy' := by exact_mod_cast hi.1
        omega
      by_cases he : (ix' : ℤ) % 2 = 0 ∧ (iy' : ℤ) % 2 = 0
      · rw [if_pos he]
        have hne1 : ((y : ℤ) * w + (x : ℤ)) ≠
            ((w / 2 : ℕ) : ℤ) * (iy' : ℤ) + ((ix' : ℤ) + ((w * h : ℕ) : ℤ)) + 1 := by
          omega
        have hne2 : ((y : ℤ) * w + (x : ℤ)) ≠
            ((w / 2 : ℕ) : ℤ) * (iy' : ℤ) + ((ix' : ℤ) + ((w * h : ℕ) : ℤ)) := by
          omega
        exact (Function.update_noteq hne1 _ _).trans
          ((Function.update_noteq hne2 _ _).trans
            (Function.update_noteq hlne _ _))
      · rw [if_neg he]
        exact Function.update_noteq hlne _ _
  · intro x y hx hy hye
    have hcast : ((w * h + w / 2 * y + x : ℕ) : ℤ) =
        ((w / 2 : ℕ) : ℤ) * (y : ℤ) + ((x : ℤ) + ((w * h : ℕ) : ℤ)) := by
      push_cast
      ring
    have hp : (0 : ℤ) ≤ ((w / 2 : ℕ) : ℤ) * (y : ℤ) := by positivity
    conv_lhs => rw [hcast]
    unfold runI420_NV12
    set x0 := x - x % 2 with hx0def
    have hx0e : x0 % 2 = 0 := by omega
    have hx0lt : x0 < w := by omega
    refine runGrid2_obs_write _
      (fun d => d (((w / 2 : ℕ) : ℤ) * (y : ℤ) + ((x : ℤ) + ((w * h : ℕ) : ℤ))))
      w h x0 y (src ((w * h + w / 2 * y + x : ℕ) : ℤ)) hx0lt hy ?_ ?_ ?_ d0
    · intro d
      show (I420_NV12 _ _ _ (stdConfig w h) d (stdConfig w h) 1 1 x0 y)
          (((w / 2 : ℕ) : ℤ) * (y : ℤ) + ((x : ℤ) + ((w * h : ℕ) : ℤ))) = _
      unfold stdConfig
      rw [I420_NV12_ident _ _ _ w h ((w / 2 : ℕ) : ℤ) ((w * h : ℕ) : ℤ)
        w h ((w / 2 : ℕ) : ℤ) ((w * h : ℕ) : ℤ) d x0 y (by positivity),
        if_neg (by rw [not_le]; exact_mod_cast hy),
        if_neg (by rw [not_le]; exact_mod_cast hx0lt),
        if_pos ⟨by omega, by omega⟩]
      have hslot : ((w : ℤ) / 4 * (y : ℤ) + (x0 : ℤ) / 2) =
          ((w / 4 * y + x0 / 2 : ℕ) : ℤ) := by
        push_cast
        ring
      by_cases hxp : x % 2 = 0
      · have hxx0 : x0 = x := by omega
        have hne1 : (((w / 2 : ℕ) : ℤ) * (y : ℤ) + ((x : ℤ) + ((w * h : ℕ) : ℤ))) ≠
            ((w / 2 : ℕ) : ℤ) * (y : ℤ) + ((x0 : ℤ) + ((w * h : ℕ) : ℤ)) + 1 := by
          omega
        have heq2 : (((w / 2 : ℕ) : ℤ) * (y : ℤ) + ((x : ℤ) + ((w * h : ℕ) : ℤ))) =
            ((w / 2 : ℕ) : ℤ) * (y : ℤ) + ((x0 : ℤ) + ((w * h : ℕ) : ℤ)) := by
          omega
        have hval : ((w * h + w / 2 * y + x0 : ℕ) : ℤ) =
            ((w * h + w / 2 * y + x : ℕ) : ℤ) := by
          rw [hxx0]
        have hcu := runNV12_I420_chromaU src w h bufs x0 y hx0lt hy hhw h4 hx0e hye
        unfold stdConfig at hcu
        refine ((Function.update_noteq hne1 _ _).trans ?_)
        rw [heq2, Function.update_same, hslot, hcu, hval]
      · have heq1 : (((w / 2 : ℕ) : ℤ) * (y : ℤ) + ((x : ℤ) + ((w * h : ℕ) : ℤ))) =
            ((w / 2 : ℕ) : ℤ) * (y : ℤ) + ((x0 : ℤ) + ((w * h : ℕ) : ℤ)) + 1 := by
          omega
        have hval : ((w * h + w / 2 * y + x0 + 1 : ℕ) : ℤ) =
            ((w * h + w / 2 * y + x : ℕ) : ℤ) := by
          have : w * h + w / 2 * y + x0 + 1 = w * h + w / 2 * y + x := by omega
          rw [this]
        have hcv := runNV12_I420_chromaV src w h bufs x0 y hx0lt hy hhw h4 hx0e hye
        unfold stdConfig at hcv
        rw [heq1, Function.update_same, hslot, hcv, hval]
    · intro ix' h1 h2 d
      unfold stdConfig
      rw [I420_NV12_ident _ _ _ w h ((w / 2 : ℕ) : ℤ) ((w * h : ℕ) : ℤ)
        w h ((w / 2 : ℕ) : ℤ) ((w * h : ℕ) : ℤ) d ix' y (by positivity),
        if_neg (by rw [not_le]; exact_mod_cast hy),
        if_neg (by rw [not_le]; exact_mod_cast h1)]
      have hlumlt : ((y : ℤ) * w + (ix' : ℤ)) < ((w * h : ℕ) : ℤ) := by
        have := addr_lt_plane ix' y w h h1 hy
        calc (y : ℤ) * w + (ix' : ℤ) = ((y * w + ix' : ℕ) : ℤ) := by
              push_cast
              ring
        _ < ((w * h : ℕ) : ℤ) := by exact_mod_cast this
      have hlne : (((w / 2 : ℕ) : ℤ) * (y : ℤ) + ((x : ℤ) + ((w * h : ℕ) : ℤ))) ≠
          ((y : ℤ) * w + (ix' : ℤ)) := by
        omega
      by_cases he : (ix' : ℤ) % 2 = 0 ∧ (y : ℤ) % 2 = 0
      · have hixe : ix' % 2 = 0 := by omega
        rw [if_pos he]
        have hne1 : (((w / 2 : ℕ) : ℤ) * (y : ℤ) + ((x : ℤ) + ((w * h : ℕ) : ℤ))) ≠
            ((w / 2 : ℕ) : ℤ) * (y : ℤ) + ((ix' : ℤ) + ((w * h : ℕ) : ℤ)) + 1 := by
          intro hc
          have hx1 : x = ix' + 1 := by omega
          omega
        have hne2 : (((w / 2 : ℕ) : ℤ) * (y : ℤ) + ((x : ℤ) + ((w * h : ℕ) : ℤ))) ≠
            ((w / 2 : ℕ) : ℤ) * (y : ℤ) + ((ix' : ℤ) + ((w * h : ℕ) : ℤ)) := by
          intro hc
          omega
        exact (Function.update_noteq hne1 _ _).trans
          ((Function.update_noteq hne2 _ _).trans
            (Function.update_noteq hlne _ _))
      · rw [if_neg he]
        exact Function.update_noteq hlne _ _
    · intro ix' iy' h1 h2 h3 d
      unfold stdConfig
      rw [I420_NV12_ident _ _ _ w h ((w / 2 : ℕ) : ℤ) ((w * h : ℕ) : ℤ)
        w h ((w / 2 : ℕ) : ℤ) ((w * h : ℕ) : ℤ) d ix' iy' (by positivity),
        if_neg (by rw [not_le]; exact_mod_cast h2),
        if_neg (by rw [not_le]; exact_mod_cast h1)]
      have hp' : (0 : ℤ) ≤ ((w / 2 : ℕ) : ℤ) * (iy' : ℤ) := by positivity
      have hlumlt : ((iy' : ℤ) * w + (ix' : ℤ)) < ((w * h : ℕ) : ℤ) := by
        have := addr_lt_plane ix' iy' w h h1 h2
        calc (iy' : ℤ) * w + (ix' : ℤ) = ((iy' * w + ix' : ℕ) : ℤ) := by
              push_cast
              ring
        _ < ((w * h : ℕ) : ℤ) := by exact_mod_cast this
      have hlne : (((w / 2 : ℕ) : ℤ) * (y : ℤ) + ((x : ℤ) + ((w * h : ℕ) : ℤ))) ≠
          ((iy' : ℤ) * w + (ix' : ℤ)) := by
        omega
      by_cases he : (ix' : ℤ) % 2 = 0 ∧ (iy' : ℤ) % 2 = 0
      · have hixe : ix' % 2 = 0 := by omega
        have hiye : iy' % 2 = 0 := by omega
        rw [if_pos he]
        have hne2 : (((w / 2 : ℕ) : ℤ) * (y : ℤ) + ((x : ℤ) + ((w * h : ℕ) : ℤ))) ≠
            ((w / 2 : ℕ) : ℤ) * (iy' : ℤ) + ((ix' : ℤ) + ((w * h : ℕ) : ℤ)) := by
          intro hc
          have hcn : w / 2 * y + x = w / 2 * iy' + ix' := by exact_mod_cast by omega
          have hi := ichroma_addr_inj w x ix' y iy' hw2 hx h1 hye hiye hcn
          omega
        have hne1 : (((w / 2 : ℕ) : ℤ) * (y : ℤ) + ((x : ℤ) + ((w * h : ℕ) : ℤ))) ≠
            ((w / 2 : ℕ) : ℤ) * (iy' : ℤ) + ((ix' : ℤ) + ((w * h : ℕ) : ℤ)) + 1 := by
          intro hc
          have hix1 : ix' + 1 < w := by omega
          have hcn : w / 2 * y + x = w / 2 * iy' + (ix' + 1) := by
            exact_mod_cast by omega
          have hi := ichroma_addr_inj w x (ix' + 1) y iy' hw2 hx hix1 hye hiye hcn
          omega
        exact (Function.update_noteq hne1 _ _).trans
          ((Function.update_noteq hne2 _ _).trans
            (Function.update_noteq hlne _ _))
      · rw [if_neg he]
        exact Function.update_noteq hlne _ _

theorem NV12_I420_roundtrip_witness :
    (4 % 4 = 0 ∧ 2 % 2 = 0 ∧ 2 ≤ 4 ∧ 1 < 4 ∧ 1 < 2) ∧
    runI420_NV12
        (runNV12_I420 (fun n => n.toNat) (stdConfig 4 2) (stdConfig 4 2) 1 1 4 2
          ((fun _ => 0), (fun _ => 0), (fun _ => 0))).1
        (runNV12_I420 (fun n => n.toNat) (stdConfig 4 2) (stdConfig 4 2) 1 1 4 2
          ((fun _ => 0), (fun _ => 0), (fun _ => 0))).2.1
        (runNV12_I420 (fun n => n.toNat) (stdConfig 4 2) (stdConfig 4 2) 1 1 4 2
          ((fun _ => 0), (fun _ => 0), (fun _ => 0))).2.2
        (stdConfig 4 2) (stdConfig 4 2) 1 1 4 2 (fun _ => 0)
        ((1 * 4 + 1 : ℕ) : ℤ) =
      (fun n : ℤ => n.toNat) ((1 * 4 + 1 : ℕ) : ℤ) :=
  ⟨⟨by norm_num, by norm_num, by norm_num, by norm_num, by norm_num⟩,
   (NV12_I420_roundtrip (fun n => n.toNat) (fun _ => 0)
      ((fun _ => 0), (fun _ => 0), (fun _ => 0)) 4 2 (by norm_num) (by norm_num)
      (by norm_num)).1 1 1 (by norm_num) (by norm_num)⟩

/-- C6 counterexample.  The claim fails on images that are merely even
in both dimensions.  (A) On a 2×4 NV12 image (height exceeding width),
`NV12_I420`'s guard `iy ≥ dstConfig[CONFIG_WIDTH]` discards rows 2 and
3, so the round trip returns 0 instead of `src 4` at luma pixel (0,2).
(B) On a 6×4 image (width ≡ 2 mod 4), the planar chroma addressing
`width/4 * y + x/2` collides — threads (4,0) and (0,2) both write U
slot 2 — so the round trip returns byte 30 (chroma of (0,2)) instead
of 28 at the NV12 chroma byte 28 (chroma of (4,0)). -/
theorem NV12_I420_roundtrip_counterexample :
    (runI420_NV12
        (runNV12_I420 (fun n => n.toNat) ⟨2, 4, 0, 0, 1, 8⟩ ⟨2, 4, 0, 0, 1, 8⟩
          1 1 2 4 ((fun _ => 0), (fun _ => 0), (fun _ => 0))).1
        (runNV12_I420 (fun n => n.toNat) ⟨2, 4, 0, 0, 1, 8⟩ ⟨2, 4, 0, 0, 1, 8⟩
          1 1 2 4 ((fun _ => 0), (fun _ => 0), (fun _ => 0))).2.1
        (runNV12_I420 (fun n => n.toNat) ⟨2, 4, 0, 0, 1, 8⟩ ⟨2, 4, 0, 0, 1, 8⟩
          1 1 2 4 ((fun _ => 0), (fun _ => 0), (fun _ => 0))).2.2
        ⟨2, 4, 0, 0, 1, 8⟩ ⟨2, 4, 0, 0, 1, 8⟩ 1 1 2 4 (fun _ => 0) 4 = 0 ∧
      (fun n : ℤ => n.toNat) (4 : ℤ) = 4) ∧
    (runI420_NV12
        (runNV12_I420 (fun n => n.toNat) ⟨6, 4, 0, 0, 3, 24⟩ ⟨6, 4, 0, 0, 3, 24⟩
          1 1 6 4 ((fun _ => 0), (fun _ => 0), (fun _ => 0))).1
        (runNV12_I420 (fun n => n.toNat) ⟨6, 4, 0, 0, 3, 24⟩ ⟨6, 4, 0, 0, 3, 24⟩
          1 1 6 4 ((fun _ => 0), (fun _ => 0), (fun _ => 0))).2.1
        (runNV12_I420 (fun n => n.toNat) ⟨6, 4, 0, 0, 3, 24⟩ ⟨6, 4, 0, 0, 3, 24⟩
          1 1 6 4 ((fun _ => 0), (fun _ => 0), (fun _ => 0))).2.2
        ⟨6, 4, 0, 0, 3, 24⟩ ⟨6, 4, 0, 0, 3, 24⟩ 1 1 6 4 (fun _ => 0) 28 = 30 ∧
      (fun n : ℤ => n.toNat) (28 : ℤ) = 28) := by
  have hA1 : runNV12_I420 (fun n => n.toNat) ⟨2, 4, 0, 0, 1, 8⟩
      ⟨2, 4, 0, 0, 1, 8⟩ 1 1 2 4 ((fun _ => 0), (fun _ => 0), (fun _ => 0)) =
      runGrid2 (fun ix iy b =>
        if (iy : ℤ) ≥ 2 then (b.1, b.2.1, b.2.2)
        else if (ix : ℤ) % 2 = 0 ∧ (iy : ℤ) % 2 = 0 then
          (Function.update b.1 ((iy : ℤ) * 2 + (ix : ℤ))
            ((fun n : ℤ => n.toNat) ((iy : ℤ) * 2 + (ix : ℤ))),
           Function.update b.2.1 ((2 : ℤ) / 4 * (iy : ℤ) + (ix : ℤ) / 2)
            ((fun n : ℤ => n.toNat) (1 * (iy : ℤ) + ((ix : ℤ) + 8))),
           Function.update b.2.2 ((2 : ℤ) / 4 * (iy : ℤ) + (ix : ℤ) / 2)
            ((fun n : ℤ => n.toNat) (1 * (iy : ℤ) + ((ix : ℤ) + 8) + 1)))
        else
          (Function.update b.1 ((iy : ℤ) * 2 + (ix : ℤ))
            ((fun n : ℤ => n.toNat) ((iy : ℤ) * 2 + (ix : ℤ))), b.2.1, b.2.2))
        2 4 ((fun _ => 0), (fun _ => 0), (fun _ => 0)) := by
    unfold runNV12_I420
    exact runGrid2_congr _ _ 2 4
      (fun ix iy b _ _ =>
        NV12_I420_ident (fun n => n.toNat) 2 4 1 8 2 4 1 8 b.1 b.2.1 b.2.2
          ix iy (by norm_num))
      ((fun _ => 0), (fun _ => 0), (fun _ => 0))
  have hB1 : runNV12_I420 (fun n => n.toNat) ⟨6, 4, 0, 0, 3, 24⟩
      ⟨6, 4, 0, 0, 3, 24⟩ 1 1 6 4 ((fun _ => 0), (fun _ => 0), (fun _ => 0)) =
      runGrid2 (fun ix iy b =>
        if (iy : ℤ) ≥ 6 then (b.1, b.2.1, b.2.2)
        else if (ix : ℤ) % 2 = 0 ∧ (iy : ℤ) % 2 = 0 then
          (Function.update b.1 ((iy : ℤ) * 6 + (ix : ℤ))
            ((fun n : ℤ => n.toNat) ((iy : ℤ) * 6 + (ix : ℤ))),
           Function.update b.2.1 ((6 : ℤ) / 4 * (iy : ℤ) + (ix : ℤ) / 2)
            ((fun n : ℤ => n.toNat) (3 * (iy : ℤ) + ((ix : ℤ) + 24))),
           Function.update b.2.2 ((6 : ℤ) / 4 * (iy : ℤ) + (ix : ℤ) / 2)
            ((fun n : ℤ => n.toNat) (3 * (iy : ℤ) + ((ix : ℤ) + 24) + 1)))
        else
          (Function.update b.1 ((iy : ℤ) * 6 + (ix : ℤ))
            ((fun n : ℤ => n.toNat) ((iy : ℤ) * 6 + (ix : ℤ))), b.2.1, b.2.2))
        6 4 ((fun _ => 0), (fun _ => 0), (fun _ => 0)) := by
    unfold runNV12_I420
    exact runGrid2_congr _ _ 6 4
      (fun ix iy b _ _ =>
        NV12_I420_ident (fun n => n.toNat) 6 4 3 24 6 4 3 24 b.1 b.2.1 b.2.2
          ix iy (by norm_num))
      ((fun _ => 0), (fun _ => 0), (fun _ => 0))
  constructor
  · constructor
    · have hA2 : runI420_NV12
          (runNV12_I420 (fun n => n.toNat) ⟨2, 4, 0, 0, 1, 8⟩ ⟨2, 4, 0, 0, 1, 8⟩
            1 1 2 4 ((fun _ => 0), (fun _ => 0), (fun _ => 0))).1
          (runNV12_I420 (fun n => n.toNat) ⟨2, 4, 0, 0, 1, 8⟩ ⟨2, 4, 0, 0, 1, 8⟩
            1 1 2 4 ((fun _ => 0), (fun _ => 0), (fun _ => 0))).2.1
          (runNV12_I420 (fun n => n.toNat) ⟨2, 4, 0, 0, 1, 8⟩ ⟨2, 4, 0, 0, 1, 8⟩
            1 1 2 4 ((fun _ => 0), (fun _ => 0), (fun _ => 0))).2.2
          ⟨2, 4, 0, 0, 1, 8⟩ ⟨2, 4, 0, 0, 1, 8⟩ 1 1 2 4 (fun _ => 0) =
          runGrid2 (fun ix iy d =>
            if (iy : ℤ) ≥ 4 then d
            else if (ix : ℤ) ≥ 2 then d
            else if (ix : ℤ) % 2 = 0 ∧ (iy : ℤ) % 2 = 0 then
              Function.update
                (Function.update
                  (Function.update d ((iy : ℤ) * 2 + (ix : ℤ))
                    ((runNV12_I420 (fun n => n.toNat) ⟨2, 4, 0, 0, 1, 8⟩
                      ⟨2, 4, 0, 0, 1, 8⟩ 1 1 2 4
                      ((fun _ => 0), (fun _ => 0), (fun _ => 0))).1
                      ((iy : ℤ) * 2 + (ix : ℤ))))
                  (1 * (iy : ℤ) + ((ix : ℤ) + 8))
                  ((runNV12_I420 (fun n => n.toNat) ⟨2, 4, 0, 0, 1, 8⟩
                    ⟨2, 4, 0, 0, 1, 8⟩ 1 1 2 4
                    ((fun _ => 0), (fun _ => 0), (fun _ => 0))).2.1
                    ((2 : ℤ) / 4 * (iy : ℤ) + (ix : ℤ) / 2)))
                (1 * (iy : ℤ) + ((ix : ℤ) + 8) + 1)
                ((runNV12_I420 (fun n => n.toNat) ⟨2, 4, 0, 0, 1, 8⟩
                  ⟨2, 4, 0, 0, 1, 8⟩ 1 1 2 4
                  ((fun _ => 0), (fun _ => 0), (fun _ => 0))).2.2
                  ((2 : ℤ) / 4 * (iy : ℤ) + (ix : ℤ) / 2))
            else
              Function.update d ((iy : ℤ) * 2 + (ix : ℤ))
                ((runNV12_I420 (fun n => n.toNat) ⟨2, 4, 0, 0, 1, 8⟩
                  ⟨2, 4, 0, 0, 1, 8⟩ 1 1 2 4
                  ((fun _ => 0), (fun _ => 0), (fun _ => 0))).1
                  ((iy : ℤ) * 2 + (ix : ℤ))))
            2 4 (fun _ => 0) := by
        unfold runI420_NV12
        exact runGrid2_congr _ _ 2 4
          (fun ix iy d _ _ =>
            I420_NV12_ident _ _ _ 2 4 1 8 2 4 1 8 d ix iy (by norm_num))
          (fun _ => 0)
      rw [hA2, hA1]
      decide
    · decide
  · constructor
    · have hB2 : runI420_NV12
          (runNV12_I420 (fun n => n.toNat) ⟨6, 4, 0, 0, 3, 24⟩ ⟨6, 4, 0, 0, 3, 24⟩
            1 1 6 4 ((fun _ => 0), (fun _ => 0), (fun _ => 0))).1
          (runNV12_I420 (fun n => n.toNat) ⟨6, 4, 0, 0, 3, 24⟩ ⟨6, 4, 0, 0, 3, 24⟩
            1 1 6 4 ((fun _ => 0), (fun _ => 0), (fun _ => 0))).2.1
          (runNV12_I420 (fun n => n.toNat) ⟨6, 4, 0, 0, 3, 24⟩ ⟨6, 4, 0, 0, 3, 24⟩
            1 1 6 4 ((fun _ => 0), (fun _ => 0), (fun _ => 0))).2.2
          ⟨6, 4, 0, 0, 3, 24⟩ ⟨6, 4, 0, 0, 3, 24⟩ 1 1 6 4 (fun _ => 0) =
          runGrid2 (fun ix iy d =>
            if (iy : ℤ) ≥ 4 then d
            else if (ix : ℤ) ≥ 6 then d
            else if (ix : ℤ) % 2 = 0 ∧ (iy : ℤ) % 2 = 0 then
              Function.update
                (Function.update
                  (Function.update d ((iy : ℤ) * 6 + (ix : ℤ))
                    ((runNV12_I420 (fun n => n.toNat) ⟨6, 4, 0, 0, 3, 24⟩
                      ⟨6, 4, 0, 0, 3, 24⟩ 1 1 6 4
                      ((fun _ => 0), (fun _ => 0), (fun _ => 0))).1
                      ((iy : ℤ) * 6 + (ix : ℤ))))
                  (3 * (iy : ℤ) + ((ix : ℤ) + 24))
                  ((runNV12_I420 (fun n => n.toNat) ⟨6, 4, 0, 0, 3, 24⟩
                    ⟨6, 4, 0, 0, 3, 24⟩ 1 1 6 4
                    ((fun _ => 0), (fun _ => 0), (fun _ => 0))).2.1
                    ((6 : ℤ) / 4 * (iy : ℤ) + (ix : ℤ) / 2)))
                (3 * (iy : ℤ) + ((ix : ℤ) + 24) + 1)
                ((runNV12_I420 (fun n => n.toNat) ⟨6, 4, 0, 0, 3, 24⟩
                  ⟨6, 4, 0, 0, 3, 24⟩ 1 1 6 4
                  ((fun _ => 0), (fun _ => 0), (fun _ => 0))).2.2
                  ((6 : ℤ) / 4 * (iy : ℤ) + (ix : ℤ) / 2))
            else
              Function.update d ((iy : ℤ) * 6 + (ix : ℤ))
                ((runNV12_I420 (fun n => n.toNat) ⟨6, 4, 0, 0, 3, 24⟩
                  ⟨6, 4, 0, 0, 3, 24⟩ 1 1 6 4
                  ((fun _ => 0), (fun _ => 0), (fun _ => 0))).1
                  ((iy : ℤ) * 6 + (ix : ℤ))))
            6 4 (fun _ => 0) := by
        unfold runI420_NV12
        exact runGrid2_congr _ _ 6 4
          (fun ix iy d _ _ =>
            I420_NV12_ident _ _ _ 6 4 3 24 6 4 3 24 d ix iy (by norm_num))
          (fun _ => 0)
      rw [hB2, hB1]
      decide
    · decide

/-- C1 (amended).  Only some kernels early-return on out-of-range
indices, and not always against the bound the spec names: `NV12_I420`
guards its **row** index against the destination config's *width*
field; `I420_NV12` guards row against source height and column against
source width; `Fusion`, `ResizeBillinear` and `GaussianBlur` guard
against their own width/height arguments.  `ScaleConvert_NV12_I420`
has no guard at all — see the counterexample. -/
theorem guarded_kernels_noop
    (src srcy srcu srcv d0 d1 d2 dst : ℤ → ℕ)
    (sc dc : ConvConfig) (kx ky : ℚ) (ix iy : ℕ)
    (puiDataIn pucFrame piLabelIn puiDataOut : ℤ → ℕ)
    (iWidth iHeight : ℤ) (fMin fMax : ℚ) (X Y : ℕ)
    (srcptr dstptr : ℤ → ℕ) (src_step src_rows src_cols : ℤ)
    (ifx ify : ℚ) (dst_step dst_rows dst_cols : ℤ) (dx dy : ℕ)
    (gin gout : ℤ → ℕ) (gW gH : ℤ) (a0 a1 a2 a3 b1 b2 cp cn : ℚ)
    (nIdX : ℤ) :
    ((iy : ℤ) ≥ dc.width →
      NV12_I420 src sc d0 d1 d2 dc kx ky ix iy = (d0, d1, d2)) ∧
    ((iy : ℤ) ≥ sc.height ∨ (ix : ℤ) ≥ sc.width →
      I420_NV12 srcy srcu srcv sc dst dc kx ky ix iy = dst) ∧
    (¬ ((X : ℤ) < iWidth ∧ (Y : ℤ) < iHeight) →
      Fusion puiDataIn pucFrame piLabelIn iWidth iHeight fMin fMax X Y
        puiDataOut = puiDataOut) ∧
    (¬ ((dx : ℤ) < dst_cols ∧ (dy : ℤ) < dst_rows) →
      ResizeBillinear srcptr src_step src_rows src_cols ifx ify dstptr
        dst_step dst_rows dst_cols dx dy = dstptr) ∧
    (nIdX ≥ gW →
      GaussianBlur gin gW gH a0 a1 a2 a3 b1 b2 cp cn nIdX gout = gout) := by
  refine ⟨fun h => if_pos h, fun h => ?_, fun h => if_neg h,
    fun h => if_neg h, fun h => if_pos h⟩
  rcases h with h | h
  · exact if_pos h
  · by_cases h2 : (iy : ℤ) ≥ sc.height
    · exact if_pos h2
    · unfold I420_NV12
      rw [if_neg h2, if_pos h]

theorem guarded_kernels_noop_witness :
    NV12_I420 (fun _ => 0) ⟨2, 2, 0, 0, 1, 4⟩ (fun _ => 0) (fun _ => 0)
      (fun _ => 0) ⟨2, 2, 0, 0, 1, 4⟩ 1 1 0 2 =
      ((fun _ => 0), (fun _ => 0), (fun _ => 0)) :=
  (guarded_kernels_noop (fun _ => 0) (fun _ => 0) (fun _ => 0) (fun _ => 0)
      (fun _ => 0) (fun _ => 0) (fun _ => 0) (fun _ => 0)
      ⟨2, 2, 0, 0, 1, 4⟩ ⟨2, 2, 0, 0, 1, 4⟩ 1 1 0 2
      (fun _ => 0) (fun _ => 0) (fun _ => 0) (fun _ => 0) 1 1 0 0 0 0
      (fun _ => 0) (fun _ => 0) 1 1 1 1 1 1 1 1 0 0
      (fun _ => 0) (fun _ => 0) 1 1 0 0 0 0 0 0 0 0 0).1 (by decide)

/-- C1 counterexample.  (A) `ScaleConvert_NV12_I420` at thread (0,5)
on a 2×2 destination — row 5 is far outside the image — still writes
the blended source value 7 into `dst_y` at linear address 10, which
held 0.  (B) `NV12_I420` at thread (0,3) on a 4×2 destination: row 3
exceeds the destination *height* 2, yet because the guard compares the
row against the width field (4), the kernel writes `src 12 = 7` to
luma address 12. -/
theorem out_of_bounds_write_counterexample :
    (((5 : ℤ) ≥ (⟨2, 2, 0, 0, 1, 4⟩ : ConvConfig).height ∧
        (ScaleConvert_NV12_I420 (fun _ => 7) ⟨2, 2, 0, 0, 1, 4⟩
          (fun _ => 0) (fun _ => 0) (fun _ => 0)
          ⟨2, 2, 0, 0, 1, 4⟩ 1 1 0 5).1 10 = 7) ∧
      (fun _ : ℤ => (0 : ℕ)) 10 = 0) ∧
    (((3 : ℤ) ≥ (⟨4, 2, 0, 0, 2, 8⟩ : ConvConfig).height ∧
        (NV12_I420 (fun _ => 7) ⟨4, 2, 0, 0, 2, 8⟩ (fun _ => 0) (fun _ => 0)
          (fun _ => 0) ⟨4, 2, 0, 0, 2, 8⟩ 1 1 0 3).1 12 = 7) ∧
      (fun _ : ℤ => (0 : ℕ)) 12 = 0) := by
  refine ⟨⟨⟨by decide, ?_⟩, rfl⟩, ⟨⟨by decide, ?_⟩, rfl⟩⟩
  · unfold ScaleConvert_NV12_I420
    dsimp only
    simp only [truncQ_zero_add_mul_one]
    have hb : ∀ d : ℚ,
        castUchar (((7 : ℕ) : ℚ) + (((7 : ℕ) : ℚ) - ((7 : ℕ) : ℚ)) * d) = 7 := by
      intro d
      have he : ((7 : ℕ) : ℚ) + (((7 : ℕ) : ℚ) - ((7 : ℕ) : ℚ)) * d =
          ((7 : ℕ) : ℚ) := by ring
      rw [he]
      unfold castUchar
      rw [truncQ_natCast]
      decide
    rw [if_neg (by omega)]
    simp only [hb]
    norm_num [Function.update]
  · rw [NV12_I420_ident (fun _ => 7) 4 2 2 8 4 2 2 8 (fun _ => 0) (fun _ => 0)
      (fun _ => 0) 0 3 (by norm_num)]
    decide

/-- `*(dst_4 + i) = (uchar4)vload4(k, src)`: a 4-byte word store.  The
`uchar4*` view of the byte buffer means word `i` occupies bytes
`4*i .. 4*i+3`. -/
def store4 (dst : ℤ → ℕ) (i : ℤ) (b0 b1 b2 b3 : ℕ) : ℤ → ℕ :=
  Function.update (Function.update (Function.update
    (Function.update dst (4 * i) b0) (4 * i + 1) b1) (4 * i + 2) b2)
    (4 * i + 3) b3

theorem store4_skip (dst : ℤ → ℕ) (i : ℤ) (b0 b1 b2 b3 : ℕ) (p : ℤ)
    (h : p < 4 * i ∨ 4 * i + 3 < p) :
    store4 dst i b0 b1 b2 b3 p = dst p := by
  unfold store4
  rw [Function.update_noteq (by omega), Function.update_noteq (by omega),
    Function.update_noteq (by omega), Function.update_noteq (by omega)]

theorem store4_get_mod (dst : ℤ → ℕ) (i : ℤ) (f : ℤ → ℕ) (k r : ℤ)
    (hr0 : 0 ≤ r) (hr4 : r < 4) :
    store4 dst i (f (4 * k)) (f (4 * k + 1)) (f (4 * k + 2)) (f (4 * k + 3))
      (4 * i + r) = f (4 * k + r) := by
  unfold store4
  simp only [Function.update_apply]
  split_ifs with h1 h2 h3 h4
  · exact congrArg f (by omega)
  · exact congrArg f (by omega)
  · exact congrArg f (by omega)
  · exact congrArg f (by omega)
  · exact absurd rfl (by omega : ¬ (0 : ℤ) = 0)

theorem store4_zero_skip (dst : ℤ → ℕ) (i : ℤ) (p : ℤ)
    (h : p < 4 * i ∨ 4 * i + 3 < p) :
    store4 dst i 0 0 0 0 p = dst p := store4_skip dst i 0 0 0 0 p h

/-- `kernel void NV12_Remove_Padding`, one thread (one output row
`id`).  `width`/`height` describe the padded source, `owidth`/`oheight`
the unpadded destination.  `>> 2` on the nonnegative addresses is
arithmetic shift, i.e. floor division by 4 (`Int.ediv`); the C division
`* 2 / 3` truncates toward zero (`Int.tdiv`). -/
def NV12_Remove_Padding (src : ℤ → ℕ) (width height : ℤ) (dst : ℤ → ℕ)
    (owidth oheight : ℤ) (id : ℕ) : ℤ → ℕ :=
  if (id : ℤ) > oheight - 1 then dst
  else
    let index_dst : ℤ := (id : ℤ) * owidth
    let id2 : ℤ :=
      if (id : ℤ) > Int.tdiv (oheight * 2) 3 - 1
      then (id : ℤ) + Int.tdiv ((height - oheight) * 2) 3
      else (id : ℤ)
    let index_src : ℤ := id2 * width
    iterRows (fun t d =>
        let i : ℤ := index_dst / 4 + (t : ℤ)
        let k : ℤ := index_src / 4 + i - index_dst / 4
        store4 d i (src (4 * k)) (src (4 * k + 1)) (src (4 * k + 2))
          (src (4 * k + 3)))
      ((index_dst + owidth) / 4 - index_dst / 4).toNat dst

/-- `kernel void NV12_Add_Padding`, one thread (one output row `id`).
`width`/`height` describe the unpadded source, `owidth`/`oheight` the
padded destination. -/
def NV12_Add_Padding (src : ℤ → ℕ) (width height : ℤ) (dst : ℤ → ℕ)
    (owidth oheight : ℤ) (id : ℕ) : ℤ → ℕ :=
  let Y_height : ℤ := Int.tdiv (height * 2) 3
  let Y_padding_lines : ℤ := Int.tdiv ((oheight - height) * 2) 3
  if (id : ℤ) > oheight - 1 then dst
  else
    let index_dst : ℤ := (id : ℤ) * owidth
    if ((id : ℤ) ≥ Y_height ∧ (id : ℤ) < Y_height + Y_padding_lines) ∨
        (id : ℤ) > height + Y_padding_lines - 1 then
      iterRows (fun t d => store4 d (index_dst / 4 + (t : ℤ)) 0 0 0 0)
        ((index_dst + owidth) / 4 - index_dst / 4).toNat dst
    else
      let id2 : ℤ :=
        if (id : ℤ) ≥ Y_height + Y_padding_lines
        then (id : ℤ) - Y_padding_lines else (id : ℤ)
      let index_src : ℤ := id2 * width
      let afterCopy : ℤ → ℕ :=
        iterRows (fun t d =>
            let i : ℤ := index_dst / 4 + (t : ℤ)
            let k : ℤ := index_src / 4 + i - index_dst / 4
            store4 d i (src (4 * k)) (src (4 * k + 1)) (src (4 * k + 2))
              (src (4 * k + 3)))
          ((index_dst + width) / 4 - index_dst / 4).toNat dst
      if owidth > width then
        iterRows (fun t d =>
            store4 d ((index_dst + width) / 4 + (t : ℤ)) 0 0 0 0)
          ((index_dst + owidth) / 4 - (index_dst + width) / 4).toNat afterCopy
      else afterCopy

/-- A whole `NV12_Remove_Padding` dispatch: one thread per output row,
`R` rows. -/
def runNV12_Remove_Padding (src : ℤ → ℕ) (width height owidth oheight : ℤ)
    (R : ℕ) (dst : ℤ → ℕ) : ℤ → ℕ :=
  iterRows (fun id d => NV12_Remove_Padding src width height d owidth oheight id)
    R dst

/-- A whole `NV12_Add_Padding` dispatch: one thread per output row,
`R` rows. -/
def runNV12_Add_Padding (src : ℤ → ℕ) (width height owidth oheight : ℤ)
    (R : ℕ) (dst : ℤ → ℕ) : ℤ → ℕ :=
  iterRows (fun id d => NV12_Add_Padding src width height d owidth oheight id)
    R dst

/-- A word-copy loop leaves any byte outside its word range unchanged. -/
theorem copyLoop_skip (src : ℤ → ℕ) (B S : ℤ) (n : ℕ) (p : ℤ)
    (h : ∀ t : ℕ, t < n → p < 4 * (B + (t : ℤ)) ∨ 4 * (B + (t : ℤ)) + 3 < p) :
    ∀ a : ℤ → ℕ, iterRows (fun t d =>
      let i : ℤ := B + (t : ℤ)
      let k : ℤ := S + i - B
      store4 d i (src (4 * k)) (src (4 * k + 1)) (src (4 * k + 2))
        (src (4 * k + 3))) n a p = a p := by
  intro a
  refine iterRows_obs_skip _ (fun b => b p) n (fun t ht a' => ?_) a
  dsimp only
  exact store4_skip _ _ _ _ _ _ _ (h t ht)

/-- A word-zeroing loop leaves any byte outside its word range
unchanged. -/
theorem zeroLoop_skip (B : ℤ) (n : ℕ) (p : ℤ)
    (h : ∀ t : ℕ, t < n → p < 4 * (B + (t : ℤ)) ∨ 4 * (B + (t : ℤ)) + 3 < p) :
    ∀ a : ℤ → ℕ, iterRows (fun t d => store4 d (B + (t : ℤ)) 0 0 0 0) n a p
      = a p := by
  intro a
  refine iterRows_obs_skip _ (fun b => b p) n (fun t ht a' => ?_) a
  dsimp only
  exact store4_skip _ _ _ _ _ _ _ (h t ht)

/-- `NV12_Remove_Padding` row `id` only writes the word range of its
own output row. -/
theorem NV12_Remove_Padding_skip (P a : ℤ → ℕ) (width height owidth oheight : ℤ)
    (id : ℕ) (p : ℤ)
    (hp : p < 4 * ((id : ℤ) * owidth / 4) ∨
      4 * (((id : ℤ) * owidth + owidth) / 4) ≤ p) :
    NV12_Remove_Padding P width height a owidth oheight id p = a p := by
  unfold NV12_Remove_Padding
  dsimp only
  split_ifs <;>
    first
      | rfl
      | exact copyLoop_skip _ _ _ _ _ (fun t ht => by omega) a

/-- `NV12_Add_Padding` row `id` only writes the word range of its own
output row. -/
theorem NV12_Add_Padding_skip (src a : ℤ → ℕ) (width height owidth oheight : ℤ)
    (id : ℕ) (p : ℤ) (h0w : 0 ≤ width) (hwow : width ≤ owidth)
    (hp : p < 4 * ((id : ℤ) * owidth / 4) ∨
      4 * (((id : ℤ) * owidth + owidth) / 4) ≤ p) :
    NV12_Add_Padding src width height a owidth oheight id p = a p := by
  unfold NV12_Add_Padding
  dsimp only
  split_ifs <;>
    first
      | rfl
      | exact zeroLoop_skip _ _ _ (fun t ht => by omega) a
      | exact (zeroLoop_skip _ _ _ (fun t ht => by omega) _).trans
          (copyLoop_skip _ _ _ _ _ (fun t ht => by omega) a)
      | exact copyLoop_skip _ _ _ _ _ (fun t ht => by omega) a

/-- `NV12_Remove_Padding` row `id`: the byte at word offset `t0`,
byte offset `r` of the output row equals the padded source byte at the
same offset into the source row selected by the kernel's row map
(whose row base address, after resolving the chroma branch, is `S`). -/
theorem NV12_Remove_Padding_get (P a : ℤ → ℕ) (width height owidth oheight : ℤ)
    (id t0 r : ℕ) (S : ℤ)
    (hg : ¬ ((id : ℤ) > oheight - 1))
    (hS : (if (id : ℤ) > Int.tdiv (oheight * 2) 3 - 1
        then (id : ℤ) + Int.tdiv ((height - oheight) * 2) 3
        else (id : ℤ)) * width = S)
    (how4 : owidth % 4 = 0) (ht0 : 4 * (t0 : ℤ) < owidth) (hr : r < 4) :
    NV12_Remove_Padding P width height a owidth oheight id
      (4 * ((id : ℤ) * owidth / 4 + (t0 : ℤ)) + (r : ℤ)) =
      P (4 * (S / 4 + (t0 : ℤ)) + (r : ℤ)) := by
  have hD4 : ((id : ℤ) * owidth) % 4 = 0 := by
    rw [Int.mul_emod, how4]
    simp
  unfold NV12_Remove_Padding
  dsimp only
  rw [if_neg hg]
  simp only [hS]
  refine iterRows_obs_write _
    (fun b => b (4 * ((id : ℤ) * owidth / 4 + (t0 : ℤ)) + (r : ℤ)))
    _ t0 _ ?_ (fun a' => ?_) (fun t ht hgt a' => ?_) a
  · omega
  · dsimp only
    exact (store4_get_mod a' _ P _ (r : ℤ) (by omega) (by omega)).trans
      (congrArg P (by omega))
  · dsimp only
    exact store4_skip _ _ _ _ _ _ _ (by omega)

/-- `NV12_Add_Padding` on a copy row `id` (neither inserted luma
padding nor tail padding): the byte at word offset `t0`, byte offset
`r` of the output row equals the source byte at the same offset into
source row base `S`. -/
theorem NV12_Add_Padding_get (src a : ℤ → ℕ) (width height owidth oheight : ℤ)
    (id t0 r : ℕ) (S : ℤ)
    (hg : ¬ ((id : ℤ) > oheight - 1))
    (hz : ¬ (((id : ℤ) ≥ Int.tdiv (height * 2) 3 ∧
        (id : ℤ) < Int.tdiv (height * 2) 3 + Int.tdiv ((oheight - height) * 2) 3) ∨
        (id : ℤ) > height + Int.tdiv ((oheight - height) * 2) 3 - 1))
    (hS : (if (id : ℤ) ≥ Int.tdiv (height * 2) 3 + Int.tdiv ((oheight - height) * 2) 3
        then (id : ℤ) - Int.tdiv ((oheight - height) * 2) 3
        else (id : ℤ)) * width = S)
    (hw4 : width % 4 = 0) (hwow : width ≤ owidth)
    (ht0 : 4 * (t0 : ℤ) < width) (hr : r < 4) :
    NV12_Add_Padding src width height a owidth oheight id
      (4 * ((id : ℤ) * owidth / 4 + (t0 : ℤ)) + (r : ℤ)) =
      src (4 * (S / 4 + (t0 : ℤ)) + (r : ℤ)) := by
  unfold NV12_Add_Padding
  dsimp only
  rw [if_neg hg, if_neg hz]
  simp only [hS]
  have hcopy : ∀ b : ℤ → ℕ,
      iterRows (fun t d =>
          let i : ℤ := (id : ℤ) * owidth / 4 + (t : ℤ)
          let k : ℤ := S / 4 + i - (id : ℤ) * owidth / 4
          store4 d i (src (4 * k)) (src (4 * k + 1)) (src (4 * k + 2))
            (src (4 * k + 3)))
        (((id : ℤ) * owidth + width) / 4 - (id : ℤ) * owidth / 4).toNat b
        (4 * ((id : ℤ) * owidth / 4 + (t0 : ℤ)) + (r : ℤ)) =
      src (4 * (S / 4 + (t0 : ℤ)) + (r : ℤ)) := by
    intro b
    refine iterRows_obs_write _
      (fun b => b (4 * ((id : ℤ) * owidth / 4 + (t0 : ℤ)) + (r : ℤ)))
      _ t0 _ ?_ (fun a' => ?_) (fun t ht hgt a' => ?_) b
    · omega
    · dsimp only
      exact (store4_get_mod a' _ src _ (r : ℤ) (by omega) (by omega)).trans
        (congrArg src (by omega))
    · dsimp only
      exact store4_skip _ _ _ _ _ _ _ (by omega)
  by_cases hov : owidth > width
  · rw [if_pos hov]
    exact (zeroLoop_skip _ _ _ (fun t ht => by omega) _).trans (hcopy a)
  · rw [if_neg hov]
    exact hcopy a

/-- C7.  NV12 padding round trip: for a source image of `width w`
(a multiple of 4) and `height h` (total NV12 rows), `NV12_Add_Padding`
to a padded geometry `(ow, oh)` with `w ≤ ow`, `h ≤ oh` (one thread
per padded row) followed by `NV12_Remove_Padding` back to `(w, h)`
(one thread per original row) reproduces every byte of the active
region: luma rows stay in place and chroma rows are shifted past the
inserted luma padding by the same `(oh - h) * 2 / 3` row count each
way. -/
theorem NV12_padding_roundtrip (x d0 d1 : ℤ → ℕ) (w h ow oh : ℕ)
    (h4 : w % 4 = 0) (hwow : w ≤ ow) (hhoh : h ≤ oh)
    (id j : ℕ) (hid : id < h) (hj : j < w) :
    runNV12_Remove_Padding
        (runNV12_Add_Padding x (w : ℤ) (h : ℤ) (ow : ℤ) (oh : ℤ) oh d0)
        (ow : ℤ) (oh : ℤ) (w : ℤ) (h : ℤ) h d1 ((id : ℤ) * (w : ℤ) + (j : ℤ)) =
      x ((id : ℤ) * (w : ℤ) + (j : ℤ)) := by
  have hW4 : ((w : ℤ)) % 4 = 0 := by omega
  have hD4 : ((id : ℤ) * (w : ℤ)) % 4 = 0 := by
    rw [Int.mul_emod, hW4]
    simp
  have hYh : Int.tdiv ((h : ℤ) * 2) 3 = ((h * 2 / 3 : ℕ) : ℤ) := by
    rw [Int.tdiv_eq_ediv (by positivity) (by norm_num)]
    omega
  have hPl : Int.tdiv (((oh : ℤ) - (h : ℤ)) * 2) 3 = (((oh - h) * 2 / 3 : ℕ) : ℤ) := by
    rw [Int.tdiv_eq_ediv (by omega) (by norm_num)]
    omega
  have hpt : (id : ℤ) * (w : ℤ) + (j : ℤ) =
      4 * ((id : ℤ) * (w : ℤ) / 4 + ((j / 4 : ℕ) : ℤ)) + ((j % 4 : ℕ) : ℤ) := by
    omega
  rw [hpt]
  unfold runNV12_Remove_Padding
  have hrowskip : ∀ (t : ℕ), t < h → id < t → ∀ a' : ℤ → ℕ,
      NV12_Remove_Padding (runNV12_Add_Padding x (w : ℤ) (h : ℤ) (ow : ℤ) (oh : ℤ) oh d0)
        (ow : ℤ) (oh : ℤ) a' (w : ℤ) (h : ℤ) t
        (4 * ((id : ℤ) * (w : ℤ) / 4 + ((j / 4 : ℕ) : ℤ)) + ((j % 4 : ℕ) : ℤ)) =
      a' (4 * ((id : ℤ) * (w : ℤ) / 4 + ((j / 4 : ℕ) : ℤ)) + ((j % 4 : ℕ) : ℤ)) := by
    intro t ht hgt a'
    refine NV12_Remove_Padding_skip _ a' _ _ _ _ t _ (Or.inl ?_)
    have h1 : ((id : ℤ) * (w : ℤ) + (w : ℤ)) ≤ ((t : ℕ) : ℤ) * (w : ℤ) := by
      calc ((id : ℤ) * (w : ℤ) + (w : ℤ)) = (((id + 1) * w : ℕ) : ℤ) := by
            push_cast
            ring
        _ ≤ ((t * w : ℕ) : ℤ) := by
            exact_mod_cast Nat.mul_le_mul_right w (by omega)
        _ = ((t : ℕ) : ℤ) * (w : ℤ) := by push_cast; ring
    have hB4 : (((t : ℕ) : ℤ) * (w : ℤ)) % 4 = 0 := by
      rw [Int.mul_emod, hW4]
      simp
    omega
  by_cases hc : (id : ℤ) > Int.tdiv ((h : ℤ) * 2) 3 - 1
  case pos =>
    have hc2 := hc
    rw [hYh] at hc2
    refine (iterRows_obs_write _
        (fun b => b (4 * ((id : ℤ) * (w : ℤ) / 4 + ((j / 4 : ℕ) : ℤ)) + ((j % 4 : ℕ) : ℤ)))
        h id (runNV12_Add_Padding x (w : ℤ) (h : ℤ) (ow : ℤ) (oh : ℤ) oh d0
          (4 * (((id + (oh - h) * 2 / 3 : ℕ) : ℤ) * (ow : ℤ) / 4 +
            ((j / 4 : ℕ) : ℤ)) + ((j % 4 : ℕ) : ℤ)))
        hid (fun a' => ?_) hrowskip d1).trans ?_
    · refine NV12_Remove_Padding_get _ a' _ _ _ _ id (j / 4) (j % 4)
        (((id + (oh - h) * 2 / 3 : ℕ) : ℤ) * (ow : ℤ))
        (by omega) ?_ (by omega) (by omega) (by omega)
      rw [if_pos hc, hPl]
      push_cast
      ring
    · unfold runNV12_Add_Padding
      refine iterRows_obs_write _
        (fun b => b (4 * (((id + (oh - h) * 2 / 3 : ℕ) : ℤ) * (ow : ℤ) / 4 +
          ((j / 4 : ℕ) : ℤ)) + ((j % 4 : ℕ) : ℤ)))
        oh (id + (oh - h) * 2 / 3) _ (by omega) (fun a' => ?_)
        (fun t ht hgt a' => ?_) d0
      · refine NV12_Add_Padding_get x a' _ _ _ _ (id + (oh - h) * 2 / 3)
          (j / 4) (j % 4) ((id : ℤ) * (w : ℤ))
          (by omega) ?_ ?_ (by omega) (by omega) (by omega) (by omega)
        · rw [hYh, hPl]
          omega
        · rw [if_pos (by rw [hYh, hPl]; omega), hPl]
          have he : (((id + (oh - h) * 2 / 3 : ℕ) : ℤ)) - (((oh - h) * 2 / 3 : ℕ) : ℤ) =
              (id : ℤ) := by
            push_cast
            ring
          rw [he]
      · refine NV12_Add_Padding_skip x a' _ _ _ _ t _ (by omega) (by omega)
          (Or.inl ?_)
        have h1 : (((id + (oh - h) * 2 / 3 : ℕ) : ℤ) * (ow : ℤ) + (ow : ℤ)) ≤
            ((t : ℕ) : ℤ) * (ow : ℤ) := by
          calc (((id + (oh - h) * 2 / 3 : ℕ) : ℤ) * (ow : ℤ) + (ow : ℤ))
              = ((((id + (oh - h) * 2 / 3) + 1) * ow : ℕ) : ℤ) := by
                push_cast
                ring
            _ ≤ ((t * ow : ℕ) : ℤ) := by
                exact_mod_cast Nat.mul_le_mul_right ow (by omega)
            _ = ((t : ℕ) : ℤ) * (ow : ℤ) := by push_cast; ring
        omega
  case neg =>
    have hc2 := hc
    rw [hYh] at hc2
    refine (iterRows_obs_write _
        (fun b => b (4 * ((id : ℤ) * (w : ℤ) / 4 + ((j / 4 : ℕ) : ℤ)) + ((j % 4 : ℕ) : ℤ)))
        h id (runNV12_Add_Padding x (w : ℤ) (h : ℤ) (ow : ℤ) (oh : ℤ) oh d0
          (4 * ((id : ℤ) * (ow : ℤ) / 4 + ((j / 4 : ℕ) : ℤ)) + ((j % 4 : ℕ) : ℤ)))
        hid (fun a' => ?_) hrowskip d1).trans ?_
    · refine NV12_Remove_Padding_get _ a' _ _ _ _ id (j / 4) (j % 4)
        ((id : ℤ) * (ow : ℤ))
        (by omega) ?_ (by omega) (by omega) (by omega)
      rw [if_neg hc]
    · unfold runNV12_Add_Padding
      refine iterRows_obs_write _
        (fun b => b (4 * ((id : ℤ) * (ow : ℤ) / 4 + ((j / 4 : ℕ) : ℤ)) +
          ((j % 4 : ℕ) : ℤ)))
        oh id _ (by omega) (fun a' => ?_) (fun t ht hgt a' => ?_) d0
      · refine NV12_Add_Padding_get x a' _ _ _ _ id (j / 4) (j % 4)
          ((id : ℤ) * (w : ℤ))
          (by omega) ?_ ?_ (by omega) (by omega) (by omega) (by omega)
        · rw [hYh, hPl]
          omega
        · rw [if_neg (by rw [hYh, hPl]; omega)]
      · refine NV12_Add_Padding_skip x a' _ _ _ _ t _ (by omega) (by omega)
          (Or.inl ?_)
        have h1 : ((id : ℤ) * (ow : ℤ) + (ow : ℤ)) ≤ ((t : ℕ) : ℤ) * (ow : ℤ) := by
          calc ((id : ℤ) * (ow : ℤ) + (ow : ℤ)) = (((id + 1) * ow : ℕ) : ℤ) := by
                push_cast
                ring
            _ ≤ ((t * ow : ℕ) : ℤ) := by
                exact_mod_cast Nat.mul_le_mul_right ow (by omega)
            _ = ((t : ℕ) : ℤ) * (ow : ℤ) := by push_cast; ring
        omega

theorem NV12_padding_roundtrip_witness :
    runNV12_Remove_Padding
        (runNV12_Add_Padding (fun n => n.toNat) ((4 : ℕ) : ℤ) ((3 : ℕ) : ℤ)
          ((8 : ℕ) : ℤ) ((6 : ℕ) : ℤ) 6 (fun _ => 0))
        ((8 : ℕ) : ℤ) ((6 : ℕ) : ℤ) ((4 : ℕ) : ℤ) ((3 : ℕ) : ℤ) 3 (fun _ => 0)
        (((2 : ℕ) : ℤ) * ((4 : ℕ) : ℤ) + ((1 : ℕ) : ℤ)) =
      (fun n : ℤ => n.toNat) (((2 : ℕ) : ℤ) * ((4 : ℕ) : ℤ) + ((1 : ℕ) : ℤ)) :=
  NV12_padding_roundtrip (fun n => n.toNat) (fun _ => 0) (fun _ => 0) 4 3 8 6
    (by decide) (by decide) (by decide) 2 1 (by decide) (by decide)
